import Mathlib

/-!
Verification development for gst/h264parse/gsth264parse.c.

The C source is shallowly embedded below: bytes are `Fin 256`, machine
integers are `Nat`/`Int` with explicit reductions modulo powers of two at
the points where the C types truncate, buffers are byte lists, and the
stateful element (`GstH264Parse`) is passed explicitly.  Loops whose C
termination argument is not structural are written with an explicit fuel
parameter instantiated so that the fuel can never be exhausted on the
executions the C code performs; this keeps every definition executable by
the kernel.
-/

/-- Bytes of the input stream (`guint8`). -/
abbrev Byte := Fin 256

/-- Bitstream reader state (struct `GstNalBs`): remaining bytes (`data`/`end`
pointers), the 64-bit byte cache and the bit position `head` of the next bit
in the cache. -/
structure GstNalBs where
  data : List Byte
  cache : Nat
  head : Nat
deriving Repr, DecidableEq

/-- Embeds `gst_nal_bs_init`: cache is prefilled with `0xffffffff` so that
the two most recently cached bytes are initially nonzero. -/
def gst_nal_bs_init (data : List Byte) : GstNalBs :=
  { data := data, cache := 0xffffffff, head := 0 }

/-- Embeds the refill loop of `gst_nal_bs_read` (`while (bs->head < n)`):
one byte is pulled per iteration; a `0x03` byte is skipped once when the two
most recently cached bytes are `00 00` (`(bs->cache & 0xffff) == 0`), and the
byte after a skipped `0x03` is cached unconditionally.  When the data runs
out, `n` is truncated to `head`.  Returns (remaining data, cache, head,
effective n). -/
def bs_fill : List Byte → Nat → Nat → Nat → List Byte × Nat × Nat × Nat
  | [], cache, head, n =>
    if head < n then ([], cache, head, head) else ([], cache, head, n)
  | b :: rest, cache, head, n =>
    if head < n then
      if b.val = 3 ∧ cache % 65536 = 0 then
        match rest with
        | [] => ([], cache, head, head)
        | c :: rest2 =>
          bs_fill rest2 ((cache * 256 + c.val) % 2 ^ 64) (head + 8) n
      else bs_fill rest ((cache * 256 + b.val) % 2 ^ 64) (head + 8) n
    else (b :: rest, cache, head, n)

/-- Embeds `gst_nal_bs_read`: refill the cache, shift the wanted bits down
(`res = bs->cache >> shift`, truncated to `guint32`), mask to `n` bits when
`n < 32`, and store the new bit position. -/
def gst_nal_bs_read (bs : GstNalBs) (n : Nat) : Nat × GstNalBs :=
  if n = 0 then (0, bs)
  else
    let r := bs_fill bs.data bs.cache bs.head n
    let data2 := r.1
    let cache2 := r.2.1
    let head2 := r.2.2.1
    let n2 := r.2.2.2
    let shift := head2 - n2
    let res := (cache2 >>> shift) % 2 ^ 32
    let res := if n2 < 32 then res % 2 ^ n2 else res
    (res, { data := data2, cache := cache2, head := shift })

/-- Embeds `gst_nal_bs_eos`: true when the byte range is exhausted and the
bit cache is empty. -/
def gst_nal_bs_eos (bs : GstNalBs) : Bool :=
  bs.data.isEmpty && bs.head = 0

/-- Embeds the leading-zero loop of `gst_nal_bs_read_ue`
(`while (gst_nal_bs_read (bs, 1) == 0 && !gst_nal_bs_eos (bs) && i < 32)`).
The `i < 32` guard bounds the loop at 33 single-bit reads, so fuel 33 is
never exhausted on the call below. -/
def ue_loop : Nat → GstNalBs → Nat → Nat × GstNalBs
  | 0, bs, i => (i, bs)
  | fuel + 1, bs, i =>
    let r := gst_nal_bs_read bs 1
    if r.1 = 0 ∧ ¬ gst_nal_bs_eos r.2 ∧ i < 32 then ue_loop fuel r.2 (i + 1)
    else (i, r.2)

/-- Embeds `gst_nal_bs_read_ue`: count leading zero bits `i`, then return
`(1 << i) - 1 + read(i)`. -/
def gst_nal_bs_read_ue (bs : GstNalBs) : Nat × GstNalBs :=
  let l := ue_loop 33 bs 0
  let r := gst_nal_bs_read l.2 l.1
  (2 ^ l.1 - 1 + r.1, r.2)

/-- Reads a list of bit widths in sequence with `gst_nal_bs_read`, returning
the list of values (the observable of claim C1). -/
def bsReadList (bs : GstNalBs) : List Nat → List Nat
  | [] => []
  | n :: ns =>
    let r := gst_nal_bs_read bs n
    r.1 :: bsReadList r.2 ns

/-- Refill loop of a reader with no emulation-prevention handling: identical
to `bs_fill` except that the `0x03`-skipping branch is absent.  This is the
reader the spec's claim C1 compares against. -/
def plain_fill : List Byte → Nat → Nat → Nat → List Byte × Nat × Nat × Nat
  | [], cache, head, n =>
    if head < n then ([], cache, head, head) else ([], cache, head, n)
  | b :: rest, cache, head, n =>
    if head < n then
      plain_fill rest ((cache * 256 + b.val) % 2 ^ 64) (head + 8) n
    else (b :: rest, cache, head, n)

/-- Bit read with no emulation-prevention handling; extraction is identical
to `gst_nal_bs_read`. -/
def plain_read (bs : GstNalBs) (n : Nat) : Nat × GstNalBs :=
  if n = 0 then (0, bs)
  else
    let r := plain_fill bs.data bs.cache bs.head n
    let data2 := r.1
    let cache2 := r.2.1
    let head2 := r.2.2.1
    let n2 := r.2.2.2
    let shift := head2 - n2
    let res := (cache2 >>> shift) % 2 ^ 32
    let res := if n2 < 32 then res % 2 ^ n2 else res
    (res, { data := data2, cache := cache2, head := shift })

/-- Sequence of plain (no emulation handling) reads. -/
def plainReadList (bs : GstNalBs) : List Nat → List Nat
  | [] => []
  | n :: ns =>
    let r := plain_read bs n
    r.1 :: plainReadList r.2 ns

/-- The byte transform actually performed by the refill loop of
`gst_nal_bs_read`, read off the code: scanning left to right with `st` the
value of the two most recently retained bytes (initially `0xffff`, matching
the cache prefill), a `0x03` byte is dropped when `st = 0`, and the byte
following a dropped `0x03` is retained unconditionally. -/
def unescape : Nat → List Byte → List Byte
  | _, [] => []
  | st, b :: rest =>
    if b.val = 3 ∧ st = 0 then
      match rest with
      | [] => []
      | c :: rest2 => c :: unescape ((st * 256 + c.val) % 65536) rest2
    else b :: unescape ((st * 256 + b.val) % 65536) rest

/-- The byte transform stated by claim C1: each occurrence of the byte
sequence `00 00 03` in the input is reduced to `00 00` (leftmost scan over
the original bytes, continuing after each reduced occurrence).  Fuel is the
list length, which each step consumes at least one element of. -/
def removeEpb3F : Nat → List Byte → List Byte
  | 0, l => l
  | fuel + 1, l =>
    match l with
    | b0 :: b1 :: b2 :: rest =>
      if b0.val = 0 ∧ b1.val = 0 ∧ b2.val = 3 then
        b0 :: b1 :: removeEpb3F fuel rest
      else b0 :: removeEpb3F fuel (b1 :: b2 :: rest)
    | _ => l

/-- Occurrence-removal transform of claim C1 (see `removeEpb3F`). -/
def removeEpb3 (l : List Byte) : List Byte := removeEpb3F l.length l

/-- Bit length of a natural number (fuel-based so the kernel can evaluate
it; fuel is the number itself, which bounds the halving chain). -/
def bitLenF : Nat → Nat → Nat
  | 0, _ => 0
  | fuel + 1, m => if m = 0 then 0 else bitLenF fuel (m / 2) + 1

/-- Binary digits of a natural number, most significant bit first
(fuel-based as `bitLenF`). -/
def natBitsF : Nat → Nat → List Bool
  | 0, _ => []
  | fuel + 1, m =>
    if m = 0 then [] else natBitsF fuel (m / 2) ++ [decide (m % 2 = 1)]

/-- Standard unsigned Exp-Golomb code of `v` as a bit string: `k` zero bits
followed by the `k + 1` binary digits of `v + 1`, where `k` is one less
than the bit length of `v + 1`. -/
def expGolombBits (v : Nat) : List Bool :=
  List.replicate (bitLenF (v + 1) (v + 1) - 1) false ++ natBitsF (v + 1) (v + 1)

/-- Packs eight bits (most significant first) into a byte. -/
def mkByte (b7 b6 b5 b4 b3 b2 b1 b0 : Bool) : Byte :=
  ⟨128 * b7.toNat + 64 * b6.toNat + 32 * b5.toNat + 16 * b4.toNat +
      8 * b3.toNat + 4 * b2.toNat + 2 * b1.toNat + b0.toNat, by
    have h7 := Bool.toNat_le b7
    have h6 := Bool.toNat_le b6
    have h5 := Bool.toNat_le b5
    have h4 := Bool.toNat_le b4
    have h3 := Bool.toNat_le b3
    have h2 := Bool.toNat_le b2
    have h1 := Bool.toNat_le b1
    have h0 := Bool.toNat_le b0
    omega⟩

/-- Packs a bit string into bytes, most significant bit first; an incomplete
final byte is padded with one bits (a realization choice for the trailing
padding the claim leaves open; an Exp-Golomb code has odd length so at
least one padding bit is always present). -/
def bitsToBytes : List Bool → List Byte
  | [] => []
  | b7 :: b6 :: b5 :: b4 :: b3 :: b2 :: b1 :: b0 :: rest =>
    mkByte b7 b6 b5 b4 b3 b2 b1 b0 :: bitsToBytes rest
  | [b7] => [mkByte b7 true true true true true true true]
  | [b7, b6] => [mkByte b7 b6 true true true true true true]
  | [b7, b6, b5] => [mkByte b7 b6 b5 true true true true true]
  | [b7, b6, b5, b4] => [mkByte b7 b6 b5 b4 true true true true]
  | [b7, b6, b5, b4, b3] => [mkByte b7 b6 b5 b4 b3 true true true]
  | [b7, b6, b5, b4, b3, b2] => [mkByte b7 b6 b5 b4 b3 b2 true true]
  | [b7, b6, b5, b4, b3, b2, b1] => [mkByte b7 b6 b5 b4 b3 b2 b1 true]

/-- Byte realization of the Exp-Golomb code of `v`. -/
def expGolombBytes (v : Nat) : List Byte := bitsToBytes (expGolombBits v)

/-- Decoding a byte range with the source reader: initialize `GstNalBs`
over it and run `gst_nal_bs_read_ue`. -/
def decodeUeBytes (d : List Byte) : Nat :=
  (gst_nal_bs_read_ue (gst_nal_bs_init d)).1

/-- Boolean roundtrip check for one value (claim C2). -/
def ueRoundTrip (v : Nat) : Bool := decodeUeBytes (expGolombBytes v) = v

/-- Checks `ueRoundTrip` for `base + j` for all `j < m`. -/
def ueRoundTripBlock (base : Nat) : Nat → Bool
  | 0 => true
  | m + 1 => ueRoundTrip (base + m) && ueRoundTripBlock base m

/-- Checks `ueRoundTrip` on blocks `[256*b, 256*(b+1))` for all blocks below
the argument (kept in blocks of 256 so kernel reduction stays shallow). -/
def ueRoundTripBlocks : Nat → Bool
  | 0 => true
  | b + 1 => ueRoundTripBlock (256 * b) 256 && ueRoundTripBlocks b

/-! Helper lemmas: the emulation-prevention reader is the plain reader over
the `unescape` transform of its input. -/

lemma stCompat (c x : Nat) :
    ((c * 256 + x) % 2 ^ 64) % 65536 = ((c % 65536) * 256 + x) % 65536 := by
  omega

lemma unescape_cons_noskip (st : Nat) (b : Byte) (rest : List Byte)
    (hcond : ¬ (b.val = 3 ∧ st = 0)) :
    unescape st (b :: rest) = b :: unescape ((st * 256 + b.val) % 65536) rest := by
  conv_lhs => rw [unescape.eq_def]
  simp [if_neg hcond]

lemma bs_fill_cons_noskip (b : Byte) (rest : List Byte) (c h n : Nat)
    (hn : h < n) (hcond : ¬ (b.val = 3 ∧ c % 65536 = 0)) :
    bs_fill (b :: rest) c h n =
      bs_fill rest ((c * 256 + b.val) % 2 ^ 64) (h + 8) n := by
  conv_lhs => rw [bs_fill.eq_def]
  simp [if_pos hn, if_neg hcond]

lemma bs_fill_not_lt (d : List Byte) (c h n : Nat) (hn : ¬ h < n) :
    bs_fill d c h n = (d, c, h, n) := by
  cases d <;> (conv_lhs => rw [bs_fill.eq_def]) <;> simp [if_neg hn]

lemma plain_fill_not_lt (d : List Byte) (c h n : Nat) (hn : ¬ h < n) :
    plain_fill d c h n = (d, c, h, n) := by
  cases d <;> simp [plain_fill, if_neg hn]

lemma fill_unescape_aux :
    ∀ N : Nat, ∀ d : List Byte, d.length ≤ N → ∀ c h n : Nat,
      plain_fill (unescape (c % 65536) d) c h n =
        (unescape ((bs_fill d c h n).2.1 % 65536) (bs_fill d c h n).1,
          (bs_fill d c h n).2) := by
  intro N
  induction N with
  | zero =>
    intro d hd c h n
    have : d = [] := List.length_eq_zero.mp (Nat.le_zero.mp hd)
    subst this
    simp only [unescape, bs_fill, plain_fill]
    split <;> simp [unescape]
  | succ N ih =>
    intro d hd c h n
    match d with
    | [] =>
      simp only [unescape, bs_fill, plain_fill]
      split <;> simp [unescape]
    | b :: rest =>
      by_cases hn : h < n
      · by_cases hskip : b.val = 3 ∧ c % 65536 = 0
        · match rest with
          | [] =>
            simp only [unescape, bs_fill, plain_fill, if_pos hn, if_pos hskip]
          | cc :: rest2 =>
            have hlen : rest2.length ≤ N := by
              simp only [List.length_cons] at hd; omega
            have hrec := ih rest2 hlen ((c * 256 + cc.val) % 2 ^ 64) (h + 8) n
            simp only [unescape, bs_fill, if_pos hn, if_pos hskip]
            simp only [plain_fill, if_pos hn]
            rw [← stCompat c cc.val]
            exact hrec
        · have hlen : rest.length ≤ N := by
            simp only [List.length_cons] at hd; omega
          have hrec := ih rest hlen ((c * 256 + b.val) % 2 ^ 64) (h + 8) n
          have hcond : ¬ (b.val = 3 ∧ (c % 65536) = 0) := by
            intro hcc; exact hskip ⟨hcc.1, by omega⟩
          rw [unescape_cons_noskip _ _ _ hcond, bs_fill_cons_noskip _ _ _ _ _ hn hskip]
          simp only [plain_fill, if_pos hn]
          rw [← stCompat c b.val]
          exact hrec
      · rw [bs_fill_not_lt _ _ _ _ hn]
        cases hu : unescape (c % 65536) (b :: rest) with
        | nil => simp [plain_fill, hn]
        | cons x xs => simp [plain_fill, hn, ← hu]

/-- View of a reader state as seen by the plain reader: the remaining data
is transformed by `unescape` in the context of the two most recently cached
bytes. -/
def toPlain (bs : GstNalBs) : GstNalBs :=
  { data := unescape (bs.cache % 65536) bs.data, cache := bs.cache, head := bs.head }

lemma fill_unescape (d : List Byte) (c h n : Nat) :
    plain_fill (unescape (c % 65536) d) c h n =
      (unescape ((bs_fill d c h n).2.1 % 65536) (bs_fill d c h n).1,
        (bs_fill d c h n).2) :=
  fill_unescape_aux d.length d le_rfl c h n

lemma read_toPlain (bs : GstNalBs) (n : Nat) :
    plain_read (toPlain bs) n =
      ((gst_nal_bs_read bs n).1, toPlain (gst_nal_bs_read bs n).2) := by
  by_cases hz : n = 0
  · subst hz
    simp [plain_read, gst_nal_bs_read, toPlain]
  · simp only [plain_read, gst_nal_bs_read, toPlain, if_neg hz]
    rw [fill_unescape]

lemma readList_toPlain (ns : List Nat) :
    ∀ bs : GstNalBs, plainReadList (toPlain bs) ns = bsReadList bs ns := by
  induction ns with
  | nil => intro bs; simp [plainReadList, bsReadList]
  | cons n ns ih =>
    intro bs
    simp only [plainReadList, bsReadList, read_toPlain]
    exact congrArg _ (ih _)

lemma unescape_cons_skip_nil (st : Nat) (b : Byte) (h : b.val = 3 ∧ st = 0) :
    unescape st [b] = [] := by
  conv_lhs => rw [unescape.eq_def]
  simp [if_pos h]

lemma unescape_cons_skip (st : Nat) (b c : Byte) (r2 : List Byte)
    (h : b.val = 3 ∧ st = 0) :
    unescape st (b :: c :: r2) = c :: unescape ((st * 256 + c.val) % 65536) r2 := by
  conv_lhs => rw [unescape.eq_def]
  simp [if_pos h]

lemma unescape_length_aux :
    ∀ N : Nat, ∀ l : List Byte, l.length ≤ N → ∀ st : Nat,
      (unescape st l).length ≤ l.length := by
  intro N
  induction N with
  | zero =>
    intro l hl st
    have : l = [] := List.length_eq_zero.mp (Nat.le_zero.mp hl)
    subst this
    simp [unescape]
  | succ N ih =>
    intro l hl st
    match l with
    | [] => simp [unescape]
    | b :: rest =>
      by_cases hc : b.val = 3 ∧ st = 0
      · match rest with
        | [] => rw [unescape_cons_skip_nil st b hc]; simp
        | c :: r2 =>
          rw [unescape_cons_skip st b c r2 hc]
          have h2 : r2.length ≤ N := by
            simp only [List.length_cons] at hl; omega
          have := ih r2 h2 ((st * 256 + c.val) % 65536)
          simp only [List.length_cons]
          omega
      · rw [unescape_cons_noskip st b rest hc]
        have h2 : rest.length ≤ N := by
          simp only [List.length_cons] at hl; omega
        have := ih rest h2 ((st * 256 + b.val) % 65536)
        simp only [List.length_cons]
        omega

lemma unescape_length_le (l : List Byte) (st : Nat) :
    (unescape st l).length ≤ l.length :=
  unescape_length_aux l.length l le_rfl st

lemma unescape_cons_eq (st : Nat) (b : Byte) (rest : List Byte)
    (h : unescape st (b :: rest) = b :: rest) :
    ¬ (b.val = 3 ∧ st = 0) ∧
      unescape ((st * 256 + b.val) % 65536) rest = rest := by
  by_cases hc : b.val = 3 ∧ st = 0
  · exfalso
    match rest with
    | [] =>
      rw [unescape_cons_skip_nil st b hc] at h
      exact List.noConfusion h
    | c :: r2 =>
      rw [unescape_cons_skip st b c r2 hc] at h
      have htl := congrArg List.tail h
      simp only [List.tail_cons] at htl
      have := unescape_length_le r2 ((st * 256 + c.val) % 65536)
      rw [htl] at this
      simp at this
  · rw [unescape_cons_noskip st b rest hc] at h
    exact ⟨hc, (List.cons.injEq _ _ _ _ ▸ h).2⟩

lemma fill_noemu_aux :
    ∀ N : Nat, ∀ d : List Byte, d.length ≤ N → ∀ c h n : Nat,
      unescape (c % 65536) d = d →
      bs_fill d c h n = plain_fill d c h n ∧
        unescape ((bs_fill d c h n).2.1 % 65536) (bs_fill d c h n).1 =
          (bs_fill d c h n).1 := by
  intro N
  induction N with
  | zero =>
    intro d hd c h n hu
    have : d = [] := List.length_eq_zero.mp (Nat.le_zero.mp hd)
    subst this
    constructor
    · simp [bs_fill, plain_fill]
    · simp [bs_fill]
      split <;> simp [unescape]
  | succ N ih =>
    intro d hd c h n hu
    match d with
    | [] =>
      constructor
      · simp [bs_fill, plain_fill]
      · simp [bs_fill]
        split <;> simp [unescape]
    | b :: rest =>
      obtain ⟨hnc, hrest⟩ := unescape_cons_eq _ _ _ hu
      by_cases hn : h < n
      · have hlen : rest.length ≤ N := by
          simp only [List.length_cons] at hd; omega
        have hrest2 :
            unescape (((c * 256 + b.val) % 2 ^ 64) % 65536) rest = rest := by
          rw [stCompat]; exact hrest
        have hrec := ih rest hlen ((c * 256 + b.val) % 2 ^ 64) (h + 8) n hrest2
        rw [bs_fill_cons_noskip _ _ _ _ _ hn hnc]
        constructor
        · rw [hrec.1]
          simp [plain_fill, if_pos hn]
        · exact hrec.2
      · rw [bs_fill_not_lt _ _ _ _ hn, plain_fill_not_lt _ _ _ _ hn]
        exact ⟨rfl, hu⟩

/-- A reader state on which the emulation check can never fire: the
`unescape` transform of the remaining data in the context of the cache is
the identity. -/
def NoEmuState (bs : GstNalBs) : Prop :=
  unescape (bs.cache % 65536) bs.data = bs.data

lemma read_noemu (bs : GstNalBs) (n : Nat) (hu : NoEmuState bs) :
    gst_nal_bs_read bs n = plain_read bs n ∧
      NoEmuState (gst_nal_bs_read bs n).2 := by
  by_cases hz : n = 0
  · subst hz
    constructor
    · simp [gst_nal_bs_read, plain_read]
    · simpa [gst_nal_bs_read] using hu
  · have hf := fill_noemu_aux bs.data.length bs.data le_rfl bs.cache bs.head n hu
    constructor
    · simp only [gst_nal_bs_read, plain_read, if_neg hz, hf.1]
    · simp only [NoEmuState, gst_nal_bs_read, if_neg hz]
      exact hf.2

/-- Value of a bit string, most significant bit first. -/
def foldBits (l : List Bool) : Nat := l.foldl (fun a b => 2 * a + b.toNat) 0

/-- The eight bits of a byte, most significant first. -/
def byteBits (b : Byte) : List Bool :=
  [b.val.testBit 7, b.val.testBit 6, b.val.testBit 5, b.val.testBit 4,
    b.val.testBit 3, b.val.testBit 2, b.val.testBit 1, b.val.testBit 0]

/-- A byte list as a bit string, most significant bit of each byte first. -/
def bytesToBits : List Byte → List Bool
  | [] => []
  | b :: rest => byteBits b ++ bytesToBits rest

lemma foldBits_from (l : List Bool) :
    ∀ a : Nat, l.foldl (fun a b => 2 * a + b.toNat) a =
      a * 2 ^ l.length + foldBits l := by
  induction l with
  | nil => intro a; simp [foldBits]
  | cons b l ih =>
    intro a
    simp only [List.foldl_cons, List.length_cons, foldBits]
    rw [ih (2 * a + b.toNat), ih (2 * 0 + b.toNat)]
    ring

lemma foldBits_append (l1 l2 : List Bool) :
    foldBits (l1 ++ l2) = foldBits l1 * 2 ^ l2.length + foldBits l2 := by
  simp only [foldBits, List.foldl_append]
  rw [foldBits_from l2 (List.foldl (fun a b => 2 * a + b.toNat) 0 l1)]
  rfl

lemma foldBits_lt (l : List Bool) : foldBits l < 2 ^ l.length := by
  induction l with
  | nil => simp [foldBits]
  | cons b l ih =>
    have hb : b.toNat ≤ 1 := Bool.toNat_le b
    have : foldBits (b :: l) = b.toNat * 2 ^ l.length + foldBits l := by
      have h := foldBits_append [b] l
      simpa [foldBits] using h
    rw [this]
    simp only [List.length_cons, pow_succ]
    nlinarith

set_option maxRecDepth 4000 in
lemma foldBits_byteBits (b : Byte) : foldBits (byteBits b) = b.val := by
  revert b; decide

lemma byteBits_length (b : Byte) : (byteBits b).length = 8 := rfl

lemma bytesToBits_length (l : List Byte) :
    (bytesToBits l).length = 8 * l.length := by
  induction l with
  | nil => simp [bytesToBits]
  | cons b rest ih =>
    simp [bytesToBits, ih, byteBits_length]
    omega

/-- Abstraction of a (plain) reader state as the bit string it will deliver:
the pending cache bits followed by the bits of the remaining bytes. -/
def BsAbs (bs : GstNalBs) (bl : List Bool) : Prop :=
  ∃ hb : List Bool, bl = hb ++ bytesToBits bs.data ∧ hb.length = bs.head ∧
    bs.cache % 2 ^ bs.head = foldBits hb

lemma abs_eos (bs : GstNalBs) (bl : List Bool) (habs : BsAbs bs bl) :
    gst_nal_bs_eos bs = true ↔ bl = [] := by
  obtain ⟨hb, hbl, hlen, _⟩ := habs
  subst hbl
  constructor
  · intro he
    simp only [gst_nal_bs_eos, Bool.and_eq_true, List.isEmpty_iff,
      decide_eq_true_eq] at he
    obtain ⟨hd, hh⟩ := he
    have : hb = [] := List.length_eq_zero.mp (by omega)
    simp [this, hd, bytesToBits]
  · intro he
    have h1 : hb = [] := by
      rcases List.append_eq_nil.mp he with ⟨h1, _⟩
      exact h1
    have h2 : bytesToBits bs.data = [] := by
      rcases List.append_eq_nil.mp he with ⟨_, h2⟩
      exact h2
    have hd : bs.data = [] := by
      cases hdata : bs.data with
      | nil => rfl
      | cons x xs =>
        rw [hdata] at h2
        simp [bytesToBits, byteBits] at h2
    simp only [gst_nal_bs_eos, hd]
    have : bs.head = 0 := by rw [← hlen, h1]; rfl
    simp [this]

lemma plain_fill_nil_lt (c h n : Nat) (hn : h < n) :
    plain_fill [] c h n = ([], c, h, h) := by
  simp [plain_fill, if_pos hn]

lemma plain_fill_abs_aux :
    ∀ N : Nat, ∀ d : List Byte, d.length ≤ N → ∀ c h n : Nat,
      ∀ hb bl : List Bool, bl = hb ++ bytesToBits d → hb.length = h →
      c % 2 ^ h = foldBits hb → n ≤ 32 →
      ∃ hb2 : List Bool,
        bl = hb2 ++ bytesToBits (plain_fill d c h n).1 ∧
        hb2.length = (plain_fill d c h n).2.2.1 ∧
        (plain_fill d c h n).2.1 % 2 ^ (plain_fill d c h n).2.2.1 = foldBits hb2 ∧
        (plain_fill d c h n).2.2.2 ≤ (plain_fill d c h n).2.2.1 ∧
        (n ≤ bl.length → (plain_fill d c h n).2.2.2 = n) := by
  intro N
  induction N with
  | zero =>
    intro d hd c h n hb bl hbl hlen hc hn32
    have hdn : d = [] := List.length_eq_zero.mp (Nat.le_zero.mp hd)
    subst hdn
    by_cases hn : h < n
    · rw [plain_fill_nil_lt _ _ _ hn]
      refine ⟨hb, hbl, hlen, hc, le_rfl, ?_⟩
      intro hle
      rw [hbl] at hle
      simp only [List.length_append, bytesToBits, List.length_nil, hlen] at hle
      omega
    · rw [plain_fill_not_lt _ _ _ _ hn]
      exact ⟨hb, hbl, hlen, hc, show n ≤ h by omega, fun _ => rfl⟩
  | succ N ih =>
    intro d hd c h n hb bl hbl hlen hc hn32
    by_cases hn : h < n
    · match d with
      | [] =>
        rw [plain_fill_nil_lt _ _ _ hn]
        refine ⟨hb, hbl, hlen, hc, le_rfl, ?_⟩
        intro hle
        rw [hbl] at hle
        simp only [List.length_append, bytesToBits, List.length_nil, hlen] at hle
        omega
      | b :: rest =>
        have hstep : plain_fill (b :: rest) c h n =
            plain_fill rest ((c * 256 + b.val) % 2 ^ 64) (h + 8) n := by
          simp [plain_fill, if_pos hn]
        rw [hstep]
        have hlen2 : rest.length ≤ N := by
          simp only [List.length_cons] at hd; omega
        have hbl2 : bl = (hb ++ byteBits b) ++ bytesToBits rest := by
          rw [hbl]; simp [bytesToBits, List.append_assoc]
        have hlen3 : (hb ++ byteBits b).length = h + 8 := by
          simp [List.length_append, byteBits_length, hlen]
        have hcval : b.val < 256 := b.isLt
        have hmod : ((c * 256 + b.val) % 2 ^ 64) % 2 ^ (h + 8) =
            foldBits (hb ++ byteBits b) := by
          have hdvd : (2 : Nat) ^ (h + 8) ∣ 2 ^ 64 :=
            pow_dvd_pow 2 (by omega)
          rw [Nat.mod_mod_of_dvd _ hdvd]
          have hsplit : (2 : Nat) ^ (h + 8) = 2 ^ h * 256 := by
            rw [pow_add]; norm_num
          have hmm : (c * 256) % (2 ^ h * 256) = (c % 2 ^ h) * 256 :=
            Nat.mul_mod_mul_right 256 c (2 ^ h)
          have hcb : c % 2 ^ h < 2 ^ h :=
            Nat.mod_lt _ (Nat.pos_pow_of_pos h (by norm_num))
          have heq : (c * 256 + b.val) % (2 ^ h * 256) =
              (c % 2 ^ h) * 256 + b.val := by
            rw [Nat.add_mod, hmm]
            have hblt : b.val % (2 ^ h * 256) = b.val := by
              apply Nat.mod_eq_of_lt
              have : (256 : Nat) ≤ 2 ^ h * 256 := by
                have : (1 : Nat) ≤ 2 ^ h := Nat.one_le_two_pow
                nlinarith
              omega
            rw [hblt]
            apply Nat.mod_eq_of_lt
            nlinarith
          rw [hsplit, heq, hc]
          rw [foldBits_append, foldBits_byteBits, byteBits_length]
          norm_num
        exact ih rest hlen2 ((c * 256 + b.val) % 2 ^ 64) (h + 8) n
          (hb ++ byteBits b) bl hbl2 hlen3 hmod hn32
    · rw [plain_fill_not_lt _ _ _ _ hn]
      exact ⟨hb, hbl, hlen, hc, show n ≤ h by omega, fun _ => rfl⟩

lemma plain_read_abs (bs : GstNalBs) (bl : List Bool) (n : Nat)
    (habs : BsAbs bs bl) (hn32 : n ≤ 32) (hnl : n ≤ bl.length) :
    (plain_read bs n).1 = foldBits (bl.take n) ∧
      BsAbs (plain_read bs n).2 (bl.drop n) := by
  by_cases hz : n = 0
  · subst hz
    simp only [plain_read, if_pos rfl]
    constructor
    · simp [foldBits]
    · simpa using habs
  · obtain ⟨hb, hbl, hlen, hc⟩ := habs
    obtain ⟨hb2, hbl2, hlen2, hc2, hge2, hfull⟩ :=
      plain_fill_abs_aux bs.data.length bs.data le_rfl bs.cache bs.head n
        hb bl hbl hlen hc hn32
    have hn2 : (plain_fill bs.data bs.cache bs.head n).2.2.2 = n := hfull hnl
    set r := plain_fill bs.data bs.cache bs.head n with hr
    set d2 := r.1
    set c2 := r.2.1
    set h2 := r.2.2.1
    rw [hn2] at hge2
    -- split the pending bits at n
    have hlt : n ≤ hb2.length := by omega
    set t := hb2.take n with ht
    set u := hb2.drop n with hu2
    have htu : hb2 = t ++ u := (List.take_append_drop n hb2).symm
    have htl : t.length = n := by
      rw [ht, List.length_take]; omega
    have hul : u.length = h2 - n := by
      rw [hu2, List.length_drop]; omega
    have hsplit : foldBits hb2 = foldBits t * 2 ^ (h2 - n) + foldBits u := by
      rw [htu, foldBits_append, hul]
    have hflt : foldBits t < 2 ^ n := by
      have := foldBits_lt t
      rwa [htl] at this
    have hfult : foldBits u < 2 ^ (h2 - n) := by
      have := foldBits_lt u
      rwa [hul] at this
    -- the cache decomposition
    have hcdecomp : c2 = 2 ^ h2 * (c2 / 2 ^ h2) + foldBits hb2 := by
      rw [← hc2]
      exact (Nat.div_add_mod c2 (2 ^ h2)).symm
    have hpow : (2 : Nat) ^ h2 = 2 ^ (h2 - n) * 2 ^ n := by
      rw [← pow_add]
      congr 1
      omega
    have hshift : c2 >>> (h2 - n) = 2 ^ n * (c2 / 2 ^ h2) + foldBits t := by
      rw [Nat.shiftRight_eq_div_pow]
      conv_lhs => rw [hcdecomp, hsplit]
      have hre : 2 ^ h2 * (c2 / 2 ^ h2) +
            (foldBits t * 2 ^ (h2 - n) + foldBits u) =
          foldBits u + (2 ^ n * (c2 / 2 ^ h2) + foldBits t) * 2 ^ (h2 - n) := by
        rw [hpow]; ring
      rw [hre, Nat.add_mul_div_right _ _ (Nat.pos_pow_of_pos _ (by norm_num)),
        Nat.div_eq_of_lt hfult]
      omega
    have hresval :
        (if n < 32 then (c2 >>> (h2 - n)) % 2 ^ 32 % 2 ^ n
          else (c2 >>> (h2 - n)) % 2 ^ 32) = foldBits t := by
      by_cases h32 : n < 32
      · rw [if_pos h32, Nat.mod_mod_of_dvd _ (pow_dvd_pow 2 (by omega)),
          hshift, Nat.mul_add_mod, Nat.mod_eq_of_lt hflt]
      · have hn32e : n = 32 := by omega
        rw [if_neg h32, hshift, hn32e, Nat.mul_add_mod,
          Nat.mod_eq_of_lt (by rw [← hn32e]; exact hflt)]
    have hntake : bl.take n = t := by
      rw [hbl2, List.take_append_of_le_length hlt, ht]
    have hndrop : bl.drop n = u ++ bytesToBits d2 := by
      rw [hbl2, List.drop_append_of_le_length hlt, hu2]
    constructor
    · simp only [plain_read, if_neg hz, ← hr, hn2, hntake]
      exact hresval
    · simp only [plain_read, if_neg hz, ← hr, hn2]
      refine ⟨u, hndrop, ?_, ?_⟩
      · simp only [hul]
      · have : c2 % 2 ^ (h2 - n) = foldBits u := by
          have hd1 : c2 % 2 ^ (h2 - n) = (c2 % 2 ^ h2) % 2 ^ (h2 - n) :=
            (Nat.mod_mod_of_dvd _ (pow_dvd_pow 2 (by omega))).symm
          rw [hd1, hc2, hsplit, Nat.mul_comm, Nat.mul_add_mod,
            Nat.mod_eq_of_lt hfult]
        exact this

lemma emu_read_abs (bs : GstNalBs) (bl : List Bool) (n : Nat)
    (hne : NoEmuState bs) (habs : BsAbs bs bl) (hn32 : n ≤ 32)
    (hnl : n ≤ bl.length) :
    (gst_nal_bs_read bs n).1 = foldBits (bl.take n) ∧
      NoEmuState (gst_nal_bs_read bs n).2 ∧
      BsAbs (gst_nal_bs_read bs n).2 (bl.drop n) := by
  obtain ⟨heq, hne2⟩ := read_noemu bs n hne
  obtain ⟨hval, habs2⟩ := plain_read_abs bs bl n habs hn32 hnl
  rw [heq]
  exact ⟨hval, heq ▸ hne2, habs2⟩

lemma ue_loop_abs :
    ∀ m : Nat, ∀ fuel i : Nat, ∀ bs : GstNalBs, ∀ bl rest : List Bool,
      NoEmuState bs → BsAbs bs bl →
      bl = List.replicate m false ++ true :: rest →
      i + m ≤ 32 → m < fuel →
      ∃ bs2 : GstNalBs,
        ue_loop fuel bs i = (i + m, bs2) ∧ NoEmuState bs2 ∧ BsAbs bs2 rest := by
  intro m
  induction m with
  | zero =>
    intro fuel i bs bl rest hne habs hbl hi hf
    match fuel with
    | f + 1 =>
      have hbl2 : bl = true :: rest := by simpa using hbl
      have hr := emu_read_abs bs bl 1 hne habs (by omega)
        (by rw [hbl2]; simp)
      have hval : (gst_nal_bs_read bs 1).1 = 1 := by
        rw [hr.1, hbl2]
        simp [foldBits]
      refine ⟨(gst_nal_bs_read bs 1).2, ?_, hr.2.1, ?_⟩
      · simp only [ue_loop, hval]
        norm_num
      · have : bl.drop 1 = rest := by rw [hbl2]; simp
        rw [← this]
        exact hr.2.2
  | succ m ih =>
    intro fuel i bs bl rest hne habs hbl hi hf
    match fuel with
    | f + 1 =>
      have hbl2 : bl = false :: (List.replicate m false ++ true :: rest) := by
        rw [hbl, List.replicate_succ]
        rfl
      have hr := emu_read_abs bs bl 1 hne habs (by omega)
        (by rw [hbl2]; simp)
      have hval : (gst_nal_bs_read bs 1).1 = 0 := by
        rw [hr.1, hbl2]
        simp [foldBits]
      have hdrop : bl.drop 1 = List.replicate m false ++ true :: rest := by
        rw [hbl2]; simp
      have habs2 : BsAbs (gst_nal_bs_read bs 1).2
          (List.replicate m false ++ true :: rest) := by
        rw [← hdrop]; exact hr.2.2
      have hnoeos : ¬ gst_nal_bs_eos (gst_nal_bs_read bs 1).2 = true := by
        rw [abs_eos _ _ habs2]
        simp
      obtain ⟨bs2, hloop, hne2, habs3⟩ :=
        ih f (i + 1) (gst_nal_bs_read bs 1).2 _ rest hr.2.1 habs2 rfl
          (by omega) (by omega)
      refine ⟨bs2, ?_, hne2, habs3⟩
      simp only [ue_loop, hval]
      rw [if_pos ⟨trivial, hnoeos, by omega⟩]
      rw [hloop]
      congr 1
      omega

lemma read_ue_abs (bs : GstNalBs) (bl rest : List Bool) (k : Nat)
    (hne : NoEmuState bs) (habs : BsAbs bs bl)
    (hbl : bl = List.replicate k false ++ true :: rest)
    (hk : k ≤ 31) (hrl : k ≤ rest.length) :
    (gst_nal_bs_read_ue bs).1 = 2 ^ k - 1 + foldBits (rest.take k) := by
  obtain ⟨bs2, hloop, hne2, habs2⟩ :=
    ue_loop_abs k 33 0 bs bl rest hne habs hbl (by omega) (by omega)
  have hread := emu_read_abs bs2 rest k hne2 habs2 (by omega) hrl
  simp only [gst_nal_bs_read_ue, hloop, Nat.zero_add]
  rw [hread.1]

lemma bitLenF_zero_arg (f : Nat) : bitLenF f 0 = 0 := by
  cases f <;> simp [bitLenF]

lemma bitLenF_invariant :
    ∀ f1 : Nat, ∀ f2 m : Nat, m ≤ f1 → m ≤ f2 → bitLenF f1 m = bitLenF f2 m := by
  intro f1
  induction f1 with
  | zero =>
    intro f2 m h1 h2
    have : m = 0 := by omega
    subst this
    simp [bitLenF_zero_arg, bitLenF]
  | succ f1 ih =>
    intro f2 m h1 h2
    by_cases hm : m = 0
    · subst hm; simp [bitLenF_zero_arg]
    · obtain ⟨f3, rfl⟩ : ∃ f3, f2 = f3 + 1 := ⟨f2 - 1, by omega⟩
      simp only [bitLenF, if_neg hm]
      have hh : m / 2 < m := Nat.div_lt_self (by omega) (by omega)
      rw [ih f3 (m / 2) (by omega) (by omega)]

lemma bitLenF_pos (f m : Nat) (h1 : 1 ≤ m) (h2 : m ≤ f) : 1 ≤ bitLenF f m := by
  obtain ⟨f', rfl⟩ : ∃ f', f = f' + 1 := ⟨f - 1, by omega⟩
  simp only [bitLenF, if_neg (by omega : ¬ m = 0)]
  omega

lemma bitLenF_bounds :
    ∀ f : Nat, ∀ m : Nat, 1 ≤ m → m ≤ f →
      2 ^ (bitLenF f m - 1) ≤ m ∧ m < 2 ^ bitLenF f m := by
  intro f
  induction f with
  | zero => intro m h1 h2; omega
  | succ f ih =>
    intro m h1 h2
    by_cases hm1 : m = 1
    · subst hm1
      simp [bitLenF, bitLenF_zero_arg]
    · have hm2 : 2 ≤ m := by omega
      have hd1 : 1 ≤ m / 2 := by omega
      have hd2 : m / 2 ≤ f := by omega
      obtain ⟨hl, hr⟩ := ih (m / 2) hd1 hd2
      have hLpos : 1 ≤ bitLenF f (m / 2) := bitLenF_pos f (m / 2) hd1 hd2
      simp only [bitLenF, if_neg (by omega : ¬ m = 0)]
      set L := bitLenF f (m / 2) with hL
      have he1 : (2 : Nat) ^ L = 2 * 2 ^ (L - 1) := by
        conv_lhs => rw [show L = (L - 1) + 1 by omega]
        rw [pow_succ]
        ring
      have he2 : (2 : Nat) ^ (L + 1) = 2 * 2 ^ L := by
        rw [pow_succ]; ring
      constructor
      · simp only [Nat.add_sub_cancel]
        omega
      · omega

lemma natBitsF_invariant :
    ∀ f1 : Nat, ∀ f2 m : Nat, m ≤ f1 → m ≤ f2 → natBitsF f1 m = natBitsF f2 m := by
  intro f1
  induction f1 with
  | zero =>
    intro f2 m h1 h2
    have : m = 0 := by omega
    subst this
    cases f2 <;> simp [natBitsF]
  | succ f1 ih =>
    intro f2 m h1 h2
    by_cases hm : m = 0
    · subst hm; cases f2 <;> simp [natBitsF]
    · obtain ⟨f3, rfl⟩ : ∃ f3, f2 = f3 + 1 := ⟨f2 - 1, by omega⟩
      simp only [natBitsF, if_neg hm]
      rw [ih f3 (m / 2) (by omega) (by omega)]

lemma natBitsF_length :
    ∀ f : Nat, ∀ m : Nat, m ≤ f → (natBitsF f m).length = bitLenF f m := by
  intro f
  induction f with
  | zero =>
    intro m h
    have : m = 0 := by omega
    subst this
    simp [natBitsF, bitLenF]
  | succ f ih =>
    intro m h
    by_cases hm : m = 0
    · subst hm; simp [natBitsF, bitLenF]
    · simp only [natBitsF, bitLenF, if_neg hm, List.length_append,
        List.length_cons, List.length_nil]
      rw [ih (m / 2) (by omega)]

lemma natBitsF_fold :
    ∀ f : Nat, ∀ m : Nat, m ≤ f → foldBits (natBitsF f m) = m := by
  intro f
  induction f with
  | zero =>
    intro m h
    have : m = 0 := by omega
    subst this
    simp [natBitsF, foldBits]
  | succ f ih =>
    intro m h
    by_cases hm : m = 0
    · subst hm; simp [natBitsF, foldBits]
    · simp only [natBitsF, if_neg hm]
      rw [foldBits_append, ih (m / 2) (by omega)]
      have hfold : foldBits [decide (m % 2 = 1)] = m % 2 := by
        rcases Nat.mod_two_eq_zero_or_one m with h2 | h2 <;> simp [h2, foldBits]
      rw [hfold]
      simp only [List.length_cons, List.length_nil, pow_one]
      omega

lemma natBitsF_cons_true :
    ∀ f : Nat, ∀ m : Nat, 1 ≤ m → m ≤ f →
      ∃ t : List Bool, natBitsF f m = true :: t := by
  intro f
  induction f with
  | zero => intro m h1 h2; omega
  | succ f ih =>
    intro m h1 h2
    by_cases hm1 : m = 1
    · subst hm1
      refine ⟨[], ?_⟩
      cases f <;> simp [natBitsF]
    · have hd1 : 1 ≤ m / 2 := by omega
      obtain ⟨t, ht⟩ := ih (m / 2) hd1 (by omega)
      refine ⟨t ++ [decide (m % 2 = 1)], ?_⟩
      simp only [natBitsF, if_neg (by omega : ¬ m = 0), ht]
      rfl

/-- Number of leading zeros of the Exp-Golomb code of `v`. -/
def ueK (v : Nat) : Nat := bitLenF (v + 1) (v + 1) - 1

lemma expGolombBits_structure (v : Nat) :
    ∃ t : List Bool,
      expGolombBits v = List.replicate (ueK v) false ++ true :: t ∧
      t.length = ueK v ∧ foldBits t = v + 1 - 2 ^ ueK v ∧
      2 ^ ueK v ≤ v + 1 ∧ v + 1 < 2 ^ (ueK v + 1) := by
  obtain ⟨t, ht⟩ := natBitsF_cons_true (v + 1) (v + 1) (by omega) le_rfl
  have hlenb := natBitsF_length (v + 1) (v + 1) le_rfl
  have hfoldb := natBitsF_fold (v + 1) (v + 1) le_rfl
  have hbounds := bitLenF_bounds (v + 1) (v + 1) (by omega) le_rfl
  have hpos := bitLenF_pos (v + 1) (v + 1) (by omega) le_rfl
  have hk : bitLenF (v + 1) (v + 1) = ueK v + 1 := by
    simp only [ueK]; omega
  refine ⟨t, ?_, ?_, ?_, ?_, ?_⟩
  · simp only [expGolombBits, ueK, ht]
  · rw [ht] at hlenb
    simp only [List.length_cons] at hlenb
    omega
  · rw [ht] at hfoldb
    have : foldBits (true :: t) = 2 ^ t.length + foldBits t := by
      have h := foldBits_append [true] t
      simpa [foldBits] using h
    rw [this] at hfoldb
    have htl : t.length = ueK v := by
      rw [ht] at hlenb
      simp only [List.length_cons] at hlenb
      omega
    rw [htl] at hfoldb
    omega
  · rw [hk] at hbounds
    simpa using hbounds.1
  · rw [hk] at hbounds
    exact hbounds.2

set_option maxRecDepth 8000 in
lemma byteBits_mkByte :
    ∀ b7 b6 b5 b4 b3 b2 b1 b0 : Bool,
      byteBits (mkByte b7 b6 b5 b4 b3 b2 b1 b0) =
        [b7, b6, b5, b4, b3, b2, b1, b0] := by
  decide

lemma bytesToBits_bitsToBytes_aux :
    ∀ N : Nat, ∀ l : List Bool, l.length ≤ N →
      ∃ p : Nat, bytesToBits (bitsToBytes l) = l ++ List.replicate p true := by
  intro N
  induction N with
  | zero =>
    intro l hl
    have : l = [] := List.length_eq_zero.mp (Nat.le_zero.mp hl)
    subst this
    exact ⟨0, by simp [bitsToBytes, bytesToBits]⟩
  | succ N ih =>
    intro l hl
    match l with
    | [] => exact ⟨0, by simp [bitsToBytes, bytesToBits]⟩
    | [b7] => exact ⟨7, by simp [bitsToBytes, bytesToBits, byteBits_mkByte]⟩
    | [b7, b6] =>
      exact ⟨6, by simp [bitsToBytes, bytesToBits, byteBits_mkByte]⟩
    | [b7, b6, b5] =>
      exact ⟨5, by simp [bitsToBytes, bytesToBits, byteBits_mkByte]⟩
    | [b7, b6, b5, b4] =>
      exact ⟨4, by simp [bitsToBytes, bytesToBits, byteBits_mkByte]⟩
    | [b7, b6, b5, b4, b3] =>
      exact ⟨3, by simp [bitsToBytes, bytesToBits, byteBits_mkByte]⟩
    | [b7, b6, b5, b4, b3, b2] =>
      exact ⟨2, by simp [bitsToBytes, bytesToBits, byteBits_mkByte]⟩
    | [b7, b6, b5, b4, b3, b2, b1] =>
      exact ⟨1, by simp [bitsToBytes, bytesToBits, byteBits_mkByte]⟩
    | [b7, b6, b5, b4, b3, b2, b1, b0] =>
      exact ⟨0, by simp [bitsToBytes, bytesToBits, byteBits_mkByte]⟩
    | b7 :: b6 :: b5 :: b4 :: b3 :: b2 :: b1 :: b0 :: c :: rest =>
      obtain ⟨p, hp⟩ := ih (c :: rest) (by
        simp only [List.length_cons] at hl ⊢
        omega)
      refine ⟨p, ?_⟩
      simp only [bitsToBytes, bytesToBits, byteBits_mkByte, hp]
      simp

lemma bytesToBits_bitsToBytes (l : List Bool) :
    ∃ p : Nat, bytesToBits (bitsToBytes l) = l ++ List.replicate p true :=
  bytesToBits_bitsToBytes_aux l.length l le_rfl

lemma bitsToBytes_length_aux :
    ∀ N : Nat, ∀ l : List Bool, l.length ≤ N →
      (bitsToBytes l).length = (l.length + 7) / 8 := by
  intro N
  induction N with
  | zero =>
    intro l hl
    have : l = [] := List.length_eq_zero.mp (Nat.le_zero.mp hl)
    subst this
    simp [bitsToBytes]
  | succ N ih =>
    intro l hl
    match l with
    | [] => simp [bitsToBytes]
    | [b7] => simp [bitsToBytes]
    | [b7, b6] => simp [bitsToBytes]
    | [b7, b6, b5] => simp [bitsToBytes]
    | [b7, b6, b5, b4] => simp [bitsToBytes]
    | [b7, b6, b5, b4, b3] => simp [bitsToBytes]
    | [b7, b6, b5, b4, b3, b2] => simp [bitsToBytes]
    | [b7, b6, b5, b4, b3, b2, b1] => simp [bitsToBytes]
    | [b7, b6, b5, b4, b3, b2, b1, b0] => simp [bitsToBytes]
    | b7 :: b6 :: b5 :: b4 :: b3 :: b2 :: b1 :: b0 :: c :: rest =>
      have hrec := ih (c :: rest) (by
        simp only [List.length_cons] at hl ⊢
        omega)
      simp only [bitsToBytes, List.length_cons, hrec]
      omega

lemma bitsToBytes_length (l : List Bool) :
    (bitsToBytes l).length = (l.length + 7) / 8 :=
  bitsToBytes_length_aux l.length l le_rfl

lemma mkByte_val_zero (b7 b6 b5 b4 b3 b2 b1 b0 : Bool)
    (h : (mkByte b7 b6 b5 b4 b3 b2 b1 b0).val = 0) :
    b7 = false ∧ b6 = false ∧ b5 = false ∧ b4 = false ∧ b3 = false ∧
      b2 = false ∧ b1 = false ∧ b0 = false := by
  revert h
  cases b7 <;> cases b6 <;> cases b5 <;> cases b4 <;> cases b3 <;>
    cases b2 <;> cases b1 <;> cases b0 <;> simp [mkByte] <;> decide

lemma bitsToBytes_head_ne_zero (l : List Bool) (j : Nat) (hj : j < 8)
    (hl : l.get? j = some true) (hlen : 8 ≤ l.length) (y : Byte)
    (hy : (bitsToBytes l).get? 0 = some y) : y.val ≠ 0 := by
  rcases l with _ | ⟨b7, _ | ⟨b6, _ | ⟨b5, _ | ⟨b4, _ | ⟨b3, _ | ⟨b2,
    _ | ⟨b1, _ | ⟨b0, rest⟩⟩⟩⟩⟩⟩⟩⟩ <;>
    simp only [List.length_cons, List.length_nil] at hlen <;> try omega
  have hyv : y = mkByte b7 b6 b5 b4 b3 b2 b1 b0 := by
    rcases rest with _ | ⟨c, rest⟩ <;>
      simpa [bitsToBytes] using hy.symm
  intro hz
  rw [hyv] at hz
  obtain ⟨e7, e6, e5, e4, e3, e2, e1, e0⟩ :=
    mkByte_val_zero b7 b6 b5 b4 b3 b2 b1 b0 hz
  subst e7; subst e6; subst e5; subst e4; subst e3; subst e2; subst e1
  subst e0
  interval_cases j <;> simp at hl

lemma unescape_id_short (D : List Byte) (hlen : D.length ≤ 4)
    (h1 : 3 ≤ D.length → ∀ y : Byte, D.get? 1 = some y → y.val ≠ 0) :
    unescape 65535 D = D := by
  match D with
  | [] => rfl
  | [a] =>
    rw [unescape_cons_noskip 65535 a [] (by rintro ⟨_, h⟩; omega)]
    rfl
  | [a, b] =>
    have ha : a.val < 256 := a.isLt
    rw [unescape_cons_noskip 65535 a [b] (by rintro ⟨_, h⟩; omega)]
    rw [unescape_cons_noskip _ b [] (by rintro ⟨_, h⟩; omega)]
    rfl
  | [a, b, c] =>
    have ha : a.val < 256 := a.isLt
    have hb : b.val < 256 := b.isLt
    have hbne : b.val ≠ 0 := h1 (by simp) b rfl
    rw [unescape_cons_noskip 65535 a [b, c] (by rintro ⟨_, h⟩; omega)]
    rw [unescape_cons_noskip _ b [c] (by rintro ⟨_, h⟩; omega)]
    rw [unescape_cons_noskip _ c [] (by rintro ⟨_, h⟩; omega)]
    rfl
  | [a, b, c, d] =>
    have ha : a.val < 256 := a.isLt
    have hb : b.val < 256 := b.isLt
    have hc : c.val < 256 := c.isLt
    have hbne : b.val ≠ 0 := h1 (by simp) b rfl
    rw [unescape_cons_noskip 65535 a [b, c, d] (by rintro ⟨_, h⟩; omega)]
    rw [unescape_cons_noskip _ b [c, d] (by rintro ⟨_, h⟩; omega)]
    rw [unescape_cons_noskip _ c [d] (by rintro ⟨_, h⟩; omega)]
    rw [unescape_cons_noskip _ d [] (by rintro ⟨_, h⟩; omega)]
    rfl

set_option maxRecDepth 8000 in
lemma ue_roundtrip_max : decodeUeBytes (expGolombBytes 65535) = 65535 := by
  decide

lemma ue_roundtrip_of_lt (v : Nat) (hv : v < 65536) :
    decodeUeBytes (expGolombBytes v) = v := by
  by_cases hmax : v = 65535
  · subst hmax; exact ue_roundtrip_max
  · obtain ⟨t, hbl, htl, hft, hlb, hub⟩ := expGolombBits_structure v
    set k := ueK v with hkdef
    have hk15 : k ≤ 15 := by
      by_contra hgt
      have hmono : (2 : Nat) ^ 16 ≤ 2 ^ k :=
        Nat.pow_le_pow_right (by norm_num) (by omega)
      have h2 : (2 : Nat) ^ 16 = 65536 := by norm_num
      omega
    have hDdef : expGolombBytes v = bitsToBytes (expGolombBits v) := rfl
    obtain ⟨p, hp⟩ := bytesToBits_bitsToBytes (expGolombBits v)
    have hbll : (expGolombBits v).length = 2 * k + 1 := by
      rw [hbl]
      simp [htl]
      omega
    have hDl : (expGolombBytes v).length ≤ 4 := by
      rw [hDdef, bitsToBytes_length, hbll]
      omega
    have hid : unescape 65535 (expGolombBytes v) = expGolombBytes v := by
      apply unescape_id_short _ hDl
      intro h3 y hy
      have hk8 : 8 ≤ k := by
        rw [hDdef, bitsToBytes_length, hbll] at h3
        omega
      have hbl8 : expGolombBits v =
          List.replicate 8 false ++
            (List.replicate (k - 8) false ++ true :: t) := by
        rw [hbl, ← List.append_assoc, ← List.replicate_add]
        congr 2
        omega
      have hDeq : expGolombBytes v =
          mkByte false false false false false false false false ::
            bitsToBytes (List.replicate (k - 8) false ++ true :: t) := by
        rw [hDdef, hbl8]
        norm_num [List.replicate_succ]
        simp [bitsToBytes]
      have hy2 : (bitsToBytes
          (List.replicate (k - 8) false ++ true :: t)).get? 0 = some y := by
        rw [hDeq] at hy
        simpa using hy
      apply bitsToBytes_head_ne_zero _ (k - 8) (by omega) _ _ y hy2
      · rw [List.get?_append_right (by simp)]
        simp
      · simp only [List.length_append, List.length_replicate,
          List.length_cons, htl]
        omega
    have hne : NoEmuState (gst_nal_bs_init (expGolombBytes v)) := by
      show unescape ((0xffffffff : Nat) % 65536) _ = _
      norm_num
      exact hid
    have habs : BsAbs (gst_nal_bs_init (expGolombBytes v))
        (bytesToBits (expGolombBytes v)) := by
      refine ⟨[], by simp [gst_nal_bs_init], rfl, ?_⟩
      simp [foldBits, gst_nal_bs_init]
    have hbits : bytesToBits (expGolombBytes v) =
        List.replicate k false ++ true :: (t ++ List.replicate p true) := by
      rw [hDdef, hp, hbl]
      simp
    have hresult := read_ue_abs (gst_nal_bs_init (expGolombBytes v))
      (bytesToBits (expGolombBytes v)) (t ++ List.replicate p true) k
      hne habs hbits (by omega)
      (by simp only [List.length_append, htl]; omega)
    rw [decodeUeBytes, hresult]
    have htake : (t ++ List.replicate p true).take k = t := by
      rw [← htl, List.take_left]
    rw [htake, hft]
    omega

/-- Claim C1, counterexample: on the byte range `00 00 03 00 03` with four
8-bit reads, `gst_nal_bs_read` drops both `0x03` bytes (the `00` retained
after the first drop re-arms the `00 00` cache condition), while the
transform of the claim — each occurrence of `00 00 03` in the original
range reduced to `00 00` — removes only the first one, so the bit values
differ (fourth read: 0 versus 3). -/
theorem C1_counterexample :
    bsReadList (gst_nal_bs_init [0, 0, 3, 0, 3]) [8, 8, 8, 8] ≠
      plainReadList (gst_nal_bs_init (removeEpb3 [0, 0, 3, 0, 3]))
        [8, 8, 8, 8] := by
  decide

/-- Claim C1, amended: for every byte range and every sequence of bit-read
requests, reading with `gst_nal_bs_read` yields bit values identical to
reading, with no emulation-prevention handling, the transformed range in
which a `0x03` byte is dropped whenever the two previously retained bytes
are `00 00` (the byte following a dropped `0x03` being retained
unconditionally) — the `unescape` transform. -/
theorem C1_amended (data : List Byte) (ns : List Nat) :
    bsReadList (gst_nal_bs_init data) ns =
      plainReadList (gst_nal_bs_init (unescape 65535 data)) ns := by
  have h := readList_toPlain ns (gst_nal_bs_init data)
  have he : toPlain (gst_nal_bs_init data) =
      gst_nal_bs_init (unescape 65535 data) := by
    simp only [toPlain, gst_nal_bs_init]
  rw [he] at h
  exact h.symm

/-- Claim C2 (confirmed): for every unsigned integer below two to the
sixteenth, encoding it with the standard unsigned Exp-Golomb scheme and
decoding that bit string with `gst_nal_bs_read_ue` returns the integer. -/
theorem C2_roundtrip : ∀ v : Nat, v < 65536 →
    decodeUeBytes (expGolombBytes v) = v :=
  ue_roundtrip_of_lt

/-- Witness for C2 at the concrete value 13. -/
theorem C2_roundtrip_witness :
    13 < 65536 ∧ decodeUeBytes (expGolombBytes 13) = 13 :=
  ⟨by norm_num, C2_roundtrip 13 (by norm_num)⟩

/-! Data model of the stream element (struct `GstH264Parse` and the
parameter-set records of gsth264parse.c). -/

/-- Modelled from the spec: the table bound `MAX_SPS_COUNT` lives in the
header gsth264parse.h, which is not part of the repository snapshot; the
spec fixes SPS ids to the range 0..31. -/
def MAX_SPS_COUNT : Nat := 32

/-- Modelled from the spec: `MAX_PPS_COUNT` as above; the spec fixes PPS
ids to the range 0..255. -/
def MAX_PPS_COUNT : Nat := 256

/-- Embeds struct `GstH264Sps` (the decoded subset of a sequence parameter
set).  `guint8` fields hold values reduced modulo 256 at assignment;
`gboolean` fields assigned from 1-bit reads are `Bool`;
`time_offset_length_minus1` is declared `gboolean` (= `gint`) in the C but
stores a 5-bit value, so it is an `Int` here, like the other `gint`
fields. -/
structure GstH264Sps where
  profile_idc : Nat
  level_idc : Nat
  sps_id : Nat
  pic_order_cnt_type : Nat
  log2_max_frame_num_minus4 : Nat
  frame_mbs_only_flag : Bool
  log2_max_pic_order_cnt_lsb_minus4 : Nat
  frame_cropping_flag : Bool
  vui_parameters_present_flag : Bool
  timing_info_present_flag : Bool
  num_units_in_tick : Nat
  time_scale : Nat
  fixed_frame_rate_flag : Bool
  nal_hrd_parameters_present_flag : Bool
  vcl_hrd_parameters_present_flag : Bool
  cpb_cnt_minus1 : Nat
  initial_cpb_removal_delay_length_minus1 : Int
  cpb_removal_delay_length_minus1 : Int
  dpb_output_delay_length_minus1 : Int
  time_offset_length_minus1 : Int
  pic_struct_present_flag : Bool
deriving Repr, DecidableEq

/-- Zero-filled SPS record (`g_slice_new0`). -/
def spsZero : GstH264Sps :=
  { profile_idc := 0, level_idc := 0, sps_id := 0, pic_order_cnt_type := 0,
    log2_max_frame_num_minus4 := 0, frame_mbs_only_flag := false,
    log2_max_pic_order_cnt_lsb_minus4 := 0, frame_cropping_flag := false,
    vui_parameters_present_flag := false, timing_info_present_flag := false,
    num_units_in_tick := 0, time_scale := 0, fixed_frame_rate_flag := false,
    nal_hrd_parameters_present_flag := false,
    vcl_hrd_parameters_present_flag := false, cpb_cnt_minus1 := 0,
    initial_cpb_removal_delay_length_minus1 := 0,
    cpb_removal_delay_length_minus1 := 0,
    dpb_output_delay_length_minus1 := 0, time_offset_length_minus1 := 0,
    pic_struct_present_flag := false }

/-- Embeds struct `GstH264Pps`. -/
structure GstH264Pps where
  pps_id : Nat
  sps_id : Nat
deriving Repr, DecidableEq

/-- Zero-filled PPS record. -/
def ppsZero : GstH264Pps := { pps_id := 0, sps_id := 0 }

/-- Embeds struct `_GstNalList`, one entry of the reverse-path decode
queue; the buffer field is the byte range of the unit. -/
structure GstNalList where
  nal_type : Nat
  nal_ref_idc : Nat
  first_mb_in_slice : Nat
  slice_type : Nat
  slice : Bool
  i_frame : Bool
  buffer : List Byte
deriving Repr, DecidableEq

/-- One unit handed to the downstream pad (`gst_pad_push` of a buffer):
its byte range and the DISCONT and DELTA_UNIT flags set on it.
Timestamps are outside the modelled core. -/
structure Emission where
  bytes : List Byte
  discont : Bool
  delta : Bool
deriving Repr, DecidableEq

/-- Embeds the modelled subset of struct `GstH264Parse`: configuration,
parameter-set tables (as total maps from ids, entries created lazily),
the current-SPS/PPS pointers (table indices, since `h->sps` always points
at a table entry), SEI scalar state, and the queues of both chain
directions.  `GstClockTime` values with `GST_CLOCK_TIME_NONE` are
`Option Nat`. -/
structure GstH264Parse where
  split_packetized : Bool
  packetized : Bool
  nal_length_size : Nat
  sps_buffers : Nat → Option GstH264Sps
  pps_buffers : Nat → Option GstH264Pps
  cur_sps : Option Nat
  cur_pps : Option Nat
  first_mb_in_slice : Int
  slice_type : Int
  frame_num : Int
  field_pic_flag : Bool
  bottom_field_flag : Bool
  initial_cpb_removal_delay : Nat → Int
  sei_cpb_removal_delay : Nat
  sei_dpb_output_delay : Nat
  sei_pic_struct : Int
  sei_ct_type : Int
  dts : Option Nat
  ts_trn_nb : Option Nat
  gather : List (List Byte)
  decode : List GstNalList
  decode_len : Int
  prev : Option (List Byte)
  adapter : List Byte
  have_i_frame : Bool
  discont : Bool

/-- Embeds `gst_h264_parse_init` (and the zero-filled GObject instance for
the fields `_init` does not touch). -/
def initState : GstH264Parse :=
  { split_packetized := false, packetized := false, nal_length_size := 0,
    sps_buffers := fun _ => none, pps_buffers := fun _ => none,
    cur_sps := none, cur_pps := none,
    first_mb_in_slice := -1, slice_type := -1, frame_num := -1,
    field_pic_flag := false, bottom_field_flag := false,
    initial_cpb_removal_delay := fun _ => -1,
    sei_cpb_removal_delay := 0, sei_dpb_output_delay := 0,
    sei_pic_struct := -1, sei_ct_type := -1,
    dts := none, ts_trn_nb := none,
    gather := [], decode := [], decode_len := 0, prev := none,
    adapter := [], have_i_frame := false, discont := false }

/-- Embeds `gst_h264_parse_get_sps`: out-of-range ids fail; otherwise the
entry is created zero-filled if absent and `h->sps` is pointed at it. -/
def gst_h264_parse_get_sps (h : GstH264Parse) (sps_id : Nat) :
    Option GstH264Sps × GstH264Parse :=
  if sps_id ≥ MAX_SPS_COUNT then (none, h)
  else
    let sps := (h.sps_buffers sps_id).getD spsZero
    (some sps,
      { h with sps_buffers := Function.update h.sps_buffers sps_id (some sps),
               cur_sps := some sps_id })

/-- Embeds `gst_h264_parse_get_pps`. -/
def gst_h264_parse_get_pps (h : GstH264Parse) (pps_id : Nat) :
    Option GstH264Pps × GstH264Parse :=
  if pps_id ≥ MAX_PPS_COUNT then (none, h)
  else
    let pps := (h.pps_buffers pps_id).getD ppsZero
    (some pps,
      { h with pps_buffers := Function.update h.pps_buffers pps_id (some pps),
               cur_pps := some pps_id })

/-- Embeds the `sched_sel_idx` loop of `gst_vui_decode_hrd_parameters`
(two Exp-Golomb values and one bit per entry). -/
def hrdSchedLoop : Nat → GstNalBs → GstNalBs
  | 0, bs => bs
  | m + 1, bs =>
    let r1 := gst_nal_bs_read_ue bs
    let r2 := gst_nal_bs_read_ue r1.2
    let r3 := gst_nal_bs_read r2.2 1
    hrdSchedLoop m r3.2

/-- Embeds `gst_vui_decode_hrd_parameters`: `cpb_cnt_minus1` is stored as
`guint8` before the range check; on failure the partially written record
is returned (the C mutates the table entry in place). -/
def gst_vui_decode_hrd_parameters (sps : GstH264Sps) (bs : GstNalBs) :
    Bool × GstH264Sps × GstNalBs :=
  let r := gst_nal_bs_read_ue bs
  let sps := { sps with cpb_cnt_minus1 := r.1 % 256 }
  if sps.cpb_cnt_minus1 > 31 then (false, sps, r.2)
  else
    let rb := gst_nal_bs_read r.2 4
    let rc := gst_nal_bs_read rb.2 4
    let bs := hrdSchedLoop (sps.cpb_cnt_minus1 + 1) rc.2
    let ra := gst_nal_bs_read bs 5
    let rb2 := gst_nal_bs_read ra.2 5
    let rc2 := gst_nal_bs_read rb2.2 5
    let rd2 := gst_nal_bs_read rc2.2 5
    (true,
      { sps with initial_cpb_removal_delay_length_minus1 := (ra.1 : Int),
                 cpb_removal_delay_length_minus1 := (rb2.1 : Int),
                 dpb_output_delay_length_minus1 := (rc2.1 : Int),
                 time_offset_length_minus1 := (rd2.1 : Int) },
      rd2.2)

/-- Embeds `gst_sps_decode_vui` up to its unconditional `return TRUE`; the
bitstream-restriction block after that return is dead code and is not
modelled.  The results of the two HRD-parameter calls are ignored, as in
the C. -/
def gst_sps_decode_vui (sps : GstH264Sps) (bs : GstNalBs) :
    GstH264Sps × GstNalBs :=
  let rar := gst_nal_bs_read bs 1
  let bs :=
    if rar.1 ≠ 0 then
      let ridc := gst_nal_bs_read rar.2 8
      if ridc.1 = 255 then
        (gst_nal_bs_read (gst_nal_bs_read ridc.2 16).2 16).2
      else ridc.2
    else rar.2
  let rov := gst_nal_bs_read bs 1
  let bs := if rov.1 ≠ 0 then (gst_nal_bs_read rov.2 1).2 else rov.2
  let rvs := gst_nal_bs_read bs 1
  let bs :=
    if rvs.1 ≠ 0 then
      let r1 := gst_nal_bs_read rvs.2 3
      let r2 := gst_nal_bs_read r1.2 1
      let rcd := gst_nal_bs_read r2.2 1
      if rcd.1 ≠ 0 then
        (gst_nal_bs_read (gst_nal_bs_read (gst_nal_bs_read rcd.2 8).2 8).2 8).2
      else rcd.2
    else rvs.2
  let rcl := gst_nal_bs_read bs 1
  let bs :=
    if rcl.1 ≠ 0 then
      (gst_nal_bs_read_ue (gst_nal_bs_read_ue rcl.2).2).2
    else rcl.2
  let rti := gst_nal_bs_read bs 1
  let sps := { sps with timing_info_present_flag := rti.1 ≠ 0 }
  let r2 :=
    if rti.1 ≠ 0 then
      let rn := gst_nal_bs_read rti.2 32
      let rt := gst_nal_bs_read rn.2 32
      if rt.1 = 0 then (sps, rt.2)
      else if rn.1 = 0 then (sps, rt.2)
      else
        let rf := gst_nal_bs_read rt.2 1
        ({ sps with num_units_in_tick := rn.1, time_scale := rt.1,
                    fixed_frame_rate_flag := rf.1 ≠ 0 }, rf.2)
    else (sps, rti.2)
  let sps := r2.1
  let bs := r2.2
  let rnh := gst_nal_bs_read bs 1
  let sps := { sps with nal_hrd_parameters_present_flag := rnh.1 ≠ 0 }
  let r3 :=
    if rnh.1 ≠ 0 then
      let rh := gst_vui_decode_hrd_parameters sps rnh.2
      (rh.2.1, rh.2.2)
    else (sps, rnh.2)
  let sps := r3.1
  let bs := r3.2
  let rvh := gst_nal_bs_read bs 1
  let sps := { sps with vcl_hrd_parameters_present_flag := rvh.1 ≠ 0 }
  let r4 :=
    if rvh.1 ≠ 0 then
      let rh := gst_vui_decode_hrd_parameters sps rvh.2
      (rh.2.1, rh.2.2)
    else (sps, rvh.2)
  let sps := r4.1
  let bs := r4.2
  let bs :=
    if sps.nal_hrd_parameters_present_flag ∨
        sps.vcl_hrd_parameters_present_flag then
      (gst_nal_bs_read bs 1).2
    else bs
  let rps := gst_nal_bs_read bs 1
  ({ sps with pic_struct_present_flag := rps.1 ≠ 0 }, rps.2)

/-- The fixed header reads of `gst_nal_decode_sps`: profile, four
constraint bits plus reserved bits, level, and the Exp-Golomb sps id. -/
def spsHeaderParse (bs : GstNalBs) : Nat × Nat × Nat × GstNalBs :=
  let rp := gst_nal_bs_read bs 8
  let r1 := gst_nal_bs_read rp.2 1
  let r2 := gst_nal_bs_read r1.2 1
  let r3 := gst_nal_bs_read r2.2 1
  let r4 := gst_nal_bs_read r3.2 1
  let r5 := gst_nal_bs_read r4.2 4
  let rl := gst_nal_bs_read r5.2 8
  let rid := gst_nal_bs_read_ue rl.2
  (rp.1, rl.1, rid.1, rid.2)

/-- The chroma/bit-depth/scaling block of `gst_nal_decode_sps`, entered
for the high profiles; the scaling matrices are unimplemented in the C
(flag read, body missing). -/
def spsChromaSkip (profile_idc : Nat) (bs : GstNalBs) : GstNalBs :=
  if profile_idc = 100 ∨ profile_idc = 110 ∨ profile_idc = 122 ∨
      profile_idc = 244 ∨ profile_idc = 44 ∨ profile_idc = 83 ∨
      profile_idc = 86 then
    let rcf := gst_nal_bs_read_ue bs
    let bs := if rcf.1 = 3 then (gst_nal_bs_read rcf.2 1).2 else rcf.2
    let r1 := gst_nal_bs_read_ue bs
    let r2 := gst_nal_bs_read_ue r1.2
    let r3 := gst_nal_bs_read r2.2 1
    let r4 := gst_nal_bs_read r3.2 1
    r4.2
  else bs

/-- Writes an SPS record back into its table slot (the C mutates the slot
in place through the pointer returned by `gst_h264_parse_get_sps`). -/
def writeSps (h : GstH264Parse) (sps_id : Nat) (sps : GstH264Sps) :
    GstH264Parse :=
  { h with sps_buffers := Function.update h.sps_buffers sps_id (some sps) }

/-- The reads of `gst_nal_decode_sps` after the `log2_max_frame_num_minus4`
validation: pic-order-count, discarded dimension fields, flags, cropping
offsets and the optional VUI block; returns the final record and stream. -/
def spsTailParse (sps : GstH264Sps) (bs : GstNalBs) :
    GstH264Sps × GstNalBs :=
  let rpoc := gst_nal_bs_read_ue bs
  let sps := { sps with pic_order_cnt_type := rpoc.1 % 256 }
  let r1 :=
    if sps.pic_order_cnt_type = 0 then
      let rl := gst_nal_bs_read_ue rpoc.2
      ({ sps with log2_max_pic_order_cnt_lsb_minus4 := rl.1 % 256 }, rl.2)
    else (sps, rpoc.2)
  let sps := r1.1
  let bs := r1.2
  let ra := gst_nal_bs_read_ue bs
  let rb := gst_nal_bs_read ra.2 1
  let rc := gst_nal_bs_read_ue rb.2
  let rd := gst_nal_bs_read_ue rc.2
  let rfm := gst_nal_bs_read rd.2 1
  let sps := { sps with frame_mbs_only_flag := rfm.1 ≠ 0 }
  let bs :=
    if rfm.1 ≠ 0 then rfm.2 else (gst_nal_bs_read rfm.2 1).2
  let rdi := gst_nal_bs_read bs 1
  let rfc := gst_nal_bs_read rdi.2 1
  let bs :=
    if rfc.1 ≠ 0 then
      (gst_nal_bs_read_ue (gst_nal_bs_read_ue
        (gst_nal_bs_read_ue (gst_nal_bs_read_ue rfc.2).2).2).2).2
    else rfc.2
  let rvui := gst_nal_bs_read bs 1
  let sps := { sps with vui_parameters_present_flag := rvui.1 ≠ 0 }
  if rvui.1 ≠ 0 then gst_sps_decode_vui sps rvui.2 else (sps, rvui.2)

/-- Embeds `gst_nal_decode_sps`.  The table entry is written through at
every return point, matching the in-place mutation of the C; the fields
`profile_idc`, `level_idc` and `log2_max_frame_num_minus4` are written
before the range check that can fail. -/
def gst_nal_decode_sps (h : GstH264Parse) (bs : GstNalBs) :
    Bool × GstH264Parse × GstNalBs :=
  let hd := spsHeaderParse bs
  let sps_id := hd.2.2.1 % 256
  let g := gst_h264_parse_get_sps h sps_id
  match g.1 with
  | none => (false, g.2, hd.2.2.2)
  | some sps0 =>
    let h1 := g.2
    let sps1 := { sps0 with profile_idc := hd.1, level_idc := hd.2.1 }
    let bs1 := spsChromaSkip hd.1 hd.2.2.2
    let rl2 := gst_nal_bs_read_ue bs1
    let sps2 := { sps1 with log2_max_frame_num_minus4 := rl2.1 % 256 }
    if sps2.log2_max_frame_num_minus4 > 12 then
      (false, writeSps h1 sps_id sps2, rl2.2)
    else
      let t := spsTailParse sps2 rl2.2
      (true, writeSps h1 sps_id t.1, t.2)

/-- Embeds `gst_nal_decode_pps`: only `pps_id` and the back reference
`sps_id` are decoded. -/
def gst_nal_decode_pps (h : GstH264Parse) (bs : GstNalBs) :
    Bool × GstH264Parse × GstNalBs :=
  let rid := gst_nal_bs_read_ue bs
  let pps_id := rid.1 % 256
  let g := gst_h264_parse_get_pps h pps_id
  match g.1 with
  | none => (false, g.2, rid.2)
  | some pps =>
    let h1 := g.2
    let rs := gst_nal_bs_read_ue rid.2
    let pps := { pps with sps_id := rs.1 % 256 }
    let tbl := Function.update h1.pps_buffers pps_id (some pps)
    (true, { h1 with pps_buffers := tbl }, rs.2)

/-- Embeds the `sched_sel_idx` loop of `gst_sei_decode_buffering_period`:
for each index the initial CPB removal delay is stored and its offset
skipped, both of width `initial_cpb_removal_delay_length_minus1 + 1`. -/
def bpSchedLoop (len : Nat) : Nat → Nat → GstH264Parse → GstNalBs →
    GstH264Parse × GstNalBs
  | _, 0, h, bs => (h, bs)
  | idx, m + 1, h, bs =>
    let ra := gst_nal_bs_read bs len
    let tbl := Function.update h.initial_cpb_removal_delay idx (Int.ofNat ra.1)
    let h := { h with initial_cpb_removal_delay := tbl }
    let rb := gst_nal_bs_read ra.2 len
    bpSchedLoop len (idx + 1) m h rb.2

/-- Embeds `gst_sei_decode_buffering_period`.  Note the function returns
`0` (i.e. `FALSE`) on its complete path as well as on the unresolvable-SPS
path.  The C writes `initial_cpb_removal_delay` into a 32-entry array
without re-checking `cpb_cnt_minus1`; the model stores into a total map
(an out-of-bounds write in C is undefined and unreachable through the
decoders that validate `cpb_cnt_minus1 <= 31`). -/
def gst_sei_decode_buffering_period (h : GstH264Parse) (bs : GstNalBs) :
    Bool × GstH264Parse × GstNalBs :=
  let ru := gst_nal_bs_read_ue bs
  let sps_id := ru.1 % 256
  let g := gst_h264_parse_get_sps h sps_id
  match g.1 with
  | none => (false, g.2, ru.2)
  | some sps =>
    let h := g.2
    let len := (sps.initial_cpb_removal_delay_length_minus1 + 1).toNat
    let r1 :=
      if sps.nal_hrd_parameters_present_flag then
        bpSchedLoop len 0 (sps.cpb_cnt_minus1 + 1) h ru.2
      else (h, ru.2)
    let r2 :=
      if sps.vcl_hrd_parameters_present_flag then
        bpSchedLoop len 0 (sps.cpb_cnt_minus1 + 1) r1.1 r1.2
      else r1
    let h2 := r2.1
    let h3 := { h2 with ts_trn_nb :=
        if h2.ts_trn_nb = none ∨ h2.dts = none then some 0 else h2.dts }
    (false, h3, r2.2)

/-- The `pic_struct` to `NumClockTS` table `sei_num_clock_ts_table`. -/
def sei_num_clock_ts_table : List Nat := [1, 1, 1, 2, 2, 3, 3, 2, 3]

/-- Embeds the clock-timestamp loop of `gst_sei_decode_picture_timing`. -/
def ptClockTsLoop (sps : GstH264Sps) : Nat → GstH264Parse → GstNalBs →
    GstH264Parse × GstNalBs
  | 0, h, bs => (h, bs)
  | m + 1, h, bs =>
    let rf := gst_nal_bs_read bs 1
    if rf.1 ≠ 0 then
      let r2 := gst_nal_bs_read rf.2 2
      let ct := Int.ofNat (h.sei_ct_type.toNat ||| (1 <<< r2.1))
      let h := { h with sei_ct_type := ct }
      let ra := gst_nal_bs_read r2.2 1
      let rb := gst_nal_bs_read ra.2 5
      let rfull := gst_nal_bs_read rb.2 1
      let rc := gst_nal_bs_read rfull.2 1
      let rd := gst_nal_bs_read rc.2 1
      let re := gst_nal_bs_read rd.2 8
      let bs :=
        if rfull.1 ≠ 0 then
          (gst_nal_bs_read (gst_nal_bs_read (gst_nal_bs_read re.2 6).2 6).2
            5).2
        else
          let rs := gst_nal_bs_read re.2 1
          if rs.1 ≠ 0 then
            let bsx := (gst_nal_bs_read rs.2 6).2
            let rm := gst_nal_bs_read bsx 1
            if rm.1 ≠ 0 then
              let bsy := (gst_nal_bs_read rm.2 6).2
              let rh := gst_nal_bs_read bsy 1
              if rh.1 ≠ 0 then (gst_nal_bs_read rh.2 5).2 else rh.2
            else rm.2
          else rs.2
      let bs :=
        if sps.time_offset_length_minus1 ≥ 0 then
          (gst_nal_bs_read bs (sps.time_offset_length_minus1 + 1).toNat).2
        else bs
      ptClockTsLoop sps m h bs
    else ptClockTsLoop sps m h rf.2

/-- Embeds `gst_sei_decode_picture_timing`.  Requires `h->sps` to be set;
note that, like the buffering-period decoder, the complete path ends in
`return 0` (`FALSE`). -/
def gst_sei_decode_picture_timing (h : GstH264Parse) (bs : GstNalBs) :
    Bool × GstH264Parse × GstNalBs :=
  match h.cur_sps with
  | none => (false, h, bs)
  | some si =>
    let sps := (h.sps_buffers si).getD spsZero
    let r1 :=
      if sps.nal_hrd_parameters_present_flag ||
          sps.vcl_hrd_parameters_present_flag then
        let ra := gst_nal_bs_read bs
          (sps.cpb_removal_delay_length_minus1 + 1).toNat
        let rb := gst_nal_bs_read ra.2
          (sps.dpb_output_delay_length_minus1 + 1).toNat
        ({ h with sei_cpb_removal_delay := ra.1,
                  sei_dpb_output_delay := rb.1 }, rb.2)
      else (h, bs)
    let h := r1.1
    let bs := r1.2
    if sps.pic_struct_present_flag then
      let rp := gst_nal_bs_read bs 4
      let h := { h with sei_pic_struct := (rp.1 : Int), sei_ct_type := 0 }
      if h.sei_pic_struct > (8 : Int) then (false, h, rp.2)
      else
        let num := sei_num_clock_ts_table.getD rp.1 0
        let r2 := ptClockTsLoop sps num h rp.2
        (false, r2.1, r2.2)
    else (false, h, bs)

/-- Embeds the `payloadType`/`payloadSize` accumulation loops of
`gst_nal_decode_sei` (`do { tmp = read(8); acc += tmp } while tmp == 255`).
Each iteration that continues consumes eight bits, and a truncated read
yields a value below 255, so fuel `data.length + head + 1` is never
exhausted. -/
def seiValLoop : Nat → Nat → GstNalBs → Nat × GstNalBs
  | 0, acc, bs => (acc, bs)
  | fuel + 1, acc, bs =>
    let r := gst_nal_bs_read bs 8
    if r.1 = 255 then seiValLoop fuel (acc + 255) r.2 else (acc + r.1, r.2)

/-- Embeds `gst_nal_decode_sei`: read the payload type and size, dispatch
buffering-period and picture-timing payloads to their decoders (whose
`FALSE` results propagate), and report all other payload types as `TRUE`
without consuming their bytes. -/
def gst_nal_decode_sei (h : GstH264Parse) (bs : GstNalBs) :
    Bool × GstH264Parse × GstNalBs :=
  let rt := seiValLoop (bs.data.length + bs.head + 1) 0 bs
  let payloadType := rt.1
  let rs := seiValLoop (rt.2.data.length + rt.2.head + 1) 0 rt.2
  let bs := rs.2
  if payloadType = 0 then
    let r := gst_sei_decode_buffering_period h bs
    if r.1 = false then (false, r.2.1, r.2.2) else (true, r.2.1, r.2.2)
  else if payloadType = 1 then
    let r := gst_sei_decode_picture_timing h bs
    if r.1 = false then (false, r.2.1, r.2.2) else (true, r.2.1, r.2.2)
  else (true, h, bs)

/-- Embeds `gst_h264_parse_clear_queues`: releases the gather list, the
decode queue, the carry-over buffer and the adapter, and resets
`have_i_frame`; the SPS/PPS tables are not touched by it. -/
def gst_h264_parse_clear_queues (h : GstH264Parse) : GstH264Parse :=
  { h with gather := [], decode := [], decode_len := 0, prev := none,
           adapter := [], have_i_frame := false }

/-- Big-endian value of a NAL length prefix
(`nalu_size = (nalu_size << 8) | data[i]` over a `guint32`). -/
def beBytes (l : List Byte) : Nat :=
  l.foldl (fun acc b => (acc * 256 + b.val) % 2 ^ 32) 0

/-- Embeds the start-code search of `gst_h264_parse_chain_forward`
(`for (i = 1; i < avail - 4; ++i)` looking for `00 00 00 01`): the scan is
over the suffix of the adapter starting at index `i`, and a window is only
examined while a fifth byte follows it, exactly as the C bound. -/
def findScLoop : List Byte → Nat → Option Nat
  | b0 :: b1 :: b2 :: b3 :: b4 :: tl, i =>
    if b0.val = 0 ∧ b1.val = 0 ∧ b2.val = 0 ∧ b3.val = 1 then some i
    else findScLoop (b1 :: b2 :: b3 :: b4 :: tl) (i + 1)
  | _, _ => none

/-- Delta-unit classification of `gst_h264_parse_chain_forward` given the
bytes after the length/sync prefix: slice types map I slices (and SPS/PPS
units) to a non-delta unit; the initial value `TRUE` survives a slice type
outside the switch or a short buffer. -/
def forwardDeltaUnit (payload : List Byte) : Bool :=
  match payload with
  | [] => true
  | b :: rest =>
    let nal_type := b.val &&& 0x1f
    if 1 ≤ nal_type ∧ nal_type ≤ 5 then
      let bsr := gst_nal_bs_init rest
      let rfm := gst_nal_bs_read_ue bsr
      let rst := gst_nal_bs_read_ue rfm.2
      if rst.1 = 2 ∨ rst.1 = 7 ∨ rst.1 = 4 ∨ rst.1 = 9 then false
      else true
    else if 7 ≤ nal_type ∧ nal_type ≤ 8 then false
    else true

/-- Loop body of `gst_h264_parse_chain_forward`: while enough bytes are in
the adapter, locate the next unit boundary (start-code scan for byte
streams, declared length with clamping for packetized ones), classify,
and emit; each emission removes at least one byte, so fuel equal to the
adapter length is never exhausted.  `nalu_size` is a `guint32`, so the
sums `nalu_size + nal_length_size` of the clamp test and of the split
bound are computed modulo two to the thirty-second, as in the C, and wrap
for declared lengths near the type's maximum. -/
def chainForwardLoop : Nat → GstH264Parse → List Emission →
    GstH264Parse × List Emission
  | 0, h, acc => (h, acc)
  | fuel + 1, h, acc =>
    let avail := h.adapter.length
    if avail < h.nal_length_size + 1 then (h, acc)
    else
      let onext : Option Nat :=
        if ¬ h.packetized then findScLoop (h.adapter.drop 1) 1
        else
          let nalu_size := beBytes (h.adapter.take h.nal_length_size)
          let nalu_size :=
            if nalu_size ≤ 1 ∨
                (nalu_size + h.nal_length_size) % 2 ^ 32 > avail then
              avail - h.nal_length_size
            else nalu_size
          if h.split_packetized then
            if (nalu_size + h.nal_length_size) % 2 ^ 32 ≤ avail then
              some ((nalu_size + h.nal_length_size) % 2 ^ 32)
            else none
          else some avail
      let delta_unit := forwardDeltaUnit (h.adapter.drop h.nal_length_size)
      match onext with
      | some p =>
        if 0 < p then
          let em : Emission :=
            { bytes := h.adapter.take p, discont := h.discont,
              delta := delta_unit }
          let h := { h with adapter := h.adapter.drop p, discont := false }
          chainForwardLoop fuel h (acc ++ [em])
        else (h, acc)
      | none => (h, acc)

/-- Embeds `gst_h264_parse_chain_forward`: a discontinuity clears the
adapter and arms the pending-discontinuity flag, the buffer is appended to
the adapter, and complete units are pushed. -/
def gst_h264_parse_chain_forward (h : GstH264Parse) (discont : Bool)
    (buffer : List Byte) : GstH264Parse × List Emission :=
  let h := if discont then { h with adapter := [], discont := true } else h
  let h := { h with adapter := h.adapter ++ buffer }
  chainForwardLoop h.adapter.length h []

/-- Emission loop of `gst_h264_parse_flush_decode`: the first buffer is
flagged DISCONT, the rest are not; the delta-unit flag is cleared exactly
on I frames. -/
def flushLoop : List GstNalList → Bool → List Emission
  | [], _ => []
  | l :: rest, first =>
    { bytes := l.buffer, discont := first, delta := ! l.i_frame } ::
      flushLoop rest false

/-- Embeds `gst_h264_parse_flush_decode`: pushes every queued unit in list
order, then the queue is empty and the I frame is gone. -/
def gst_h264_parse_flush_decode (h : GstH264Parse) :
    GstH264Parse × List Emission :=
  ({ h with decode := [], decode_len := h.decode_len - h.decode.length,
            have_i_frame := false },
    flushLoop h.decode true)

/-- Embeds the NAL-analysis loop of `gst_h264_parse_queue_buffer`: walk
the units of the buffer (one for byte-stream, all length-prefixed packets
for packetized data), recording type, ref idc and, for slices, the slice
type and I-frame flag (the I-frame flag is only ever set, matching the C
switch).  Each iteration consumes at least `nal_length_size` bytes with
`nal_length_size ≥ 1` on every configured stream, so fuel equal to the
byte count is never exhausted. -/
def analyzeLoop (pk : Bool) (lsize : Nat) :
    Nat → List Byte → GstNalList → GstNalList
  | 0, _, link => link
  | fuel + 1, data, link =>
    if lsize + 1 ≤ data.length then
      let nalu_size := if pk then beBytes (data.take lsize) else 0
      match data.drop lsize with
      | [] => link
      | b :: rest =>
        let link := { link with nal_ref_idc := (b.val &&& 0x60) >>> 5,
                                nal_type := b.val &&& 0x1f }
        let link :=
          if 1 ≤ link.nal_type ∧ link.nal_type ≤ 5 then
            let bsr := gst_nal_bs_init rest
            let rfm := gst_nal_bs_read_ue bsr
            let rst := gst_nal_bs_read_ue rfm.2
            { link with first_mb_in_slice := rfm.1, slice_type := rst.1,
                        slice := true,
                        i_frame :=
                          if rst.1 = 2 ∨ rst.1 = 7 ∨ rst.1 = 4 ∨ rst.1 = 9
                          then true else link.i_frame }
          else link
        if ¬ pk then link
        else analyzeLoop pk lsize fuel ((b :: rest).drop nalu_size) link
    else link

/-- Fresh queue entry for a buffer (`gst_nal_list_new` zero fill plus the
explicit `slice`/`i_frame` initialization). -/
def initLink (buffer : List Byte) : GstNalList :=
  { nal_type := 0, nal_ref_idc := 0, first_mb_in_slice := 0, slice_type := 0,
    slice := false, i_frame := false, buffer := buffer }

/-- NAL classification of one queued buffer as performed by
`gst_h264_parse_queue_buffer`. -/
def analyzeNal (p : GstH264Parse) (buffer : List Byte) : GstNalList :=
  analyzeLoop p.packetized p.nal_length_size buffer.length buffer
    (initLink buffer)

/-- Embeds `gst_h264_parse_queue_buffer`: classify the buffer; if the
queue holds an I frame and the new unit is a non-I slice, flush the decode
queue first; record a new I frame; prepend the unit to the queue. -/
def gst_h264_parse_queue_buffer (p : GstH264Parse) (buffer : List Byte) :
    GstH264Parse × List Emission :=
  let link := analyzeNal p buffer
  let r :=
    if p.have_i_frame ∧ ¬ link.i_frame ∧ link.slice then
      gst_h264_parse_flush_decode p
    else (p, [])
  let p := r.1
  let p := if link.i_frame then { p with have_i_frame := true } else p
  ({ p with decode := link :: p.decode, decode_len := p.decode_len + 1 },
    r.2)

/-- Embeds `gst_h264_parse_find_start_reverse`: scan backwards from
`size`, accumulating bytes into the 32-bit search code; a match of
`0x01000000` (the start code read in reverse) reports the position of its
first `00` byte; exhaustion reports none (the C returns `size - 1`, which
is `(guint) -1` at exhaustion). -/
def gst_h264_parse_find_start_reverse (data : List Byte) :
    Nat → Nat → Option Nat × Nat
  | 0, code => (none, code)
  | s + 1, code =>
    let byte := ((data.get? s).map Fin.val).getD 0
    let code2 := (code * 256 + byte) % 2 ^ 32
    if code2 = 0x01000000 then (some s, code2)
    else gst_h264_parse_find_start_reverse data s code2

/-- Inner splitting loop of the byte-stream branch of
`gst_h264_parse_chain_reverse`: repeatedly find a start code backwards,
queue the byte range from it to the previous split point, and keep a
start-code-free head as the carry-over buffer.  Each queued range is
nonempty, so fuel equal to the buffer length is never exhausted. -/
def revScanLoop : Nat → GstH264Parse → List Byte → Nat → Nat →
    List Emission → GstH264Parse × Option (List Byte) × List Emission
  | 0, h, _, _, _, ems => (h, none, ems)
  | fuel + 1, h, gbuf, last, code, ems =>
    if last = 0 then (h, none, ems)
    else
      let f := gst_h264_parse_find_start_reverse gbuf last code
      match f.1 with
      | some start =>
        let decodeBuf := (gbuf.drop start).take (last - start)
        let q := gst_h264_parse_queue_buffer h decodeBuf
        revScanLoop fuel q.1 gbuf start f.2 (ems ++ q.2)
      | none => (h, some (gbuf.take last), ems)

/-- Gather-list walk of `gst_h264_parse_chain_reverse` on a discontinuity:
packetized buffers are queued directly; byte-stream buffers are joined
with the carry-over buffer and split backwards at start codes. -/
def gatherLoop : List (List Byte) → GstH264Parse → Option (List Byte) →
    List Emission → GstH264Parse × List Emission
  | [], h, prev, ems => ({ h with prev := prev }, ems)
  | gbuf :: rest, h, prev, ems =>
    if h.packetized then
      let q := gst_h264_parse_queue_buffer h gbuf
      gatherLoop rest q.1 prev (ems ++ q.2)
    else
      let gbuf2 := match prev with
        | some pb => gbuf ++ pb
        | none => gbuf
      let r := revScanLoop (gbuf2.length + 1) h gbuf2 gbuf2.length
        0xffffffff ems
      gatherLoop rest r.1 r.2.1 r.2.2

/-- Embeds `gst_h264_parse_chain_reverse`: without a discontinuity the
buffer is only gathered; on a discontinuity the gathered buffers are
walked (most recently arrived first) and queued for decoding, and the
buffer, when present, starts the next gather list. -/
def gst_h264_parse_chain_reverse (h : GstH264Parse) (discont : Bool)
    (buffer : Option (List Byte)) : GstH264Parse × List Emission :=
  let r :=
    if discont then
      let prev := h.prev
      let g := h.gather
      gatherLoop g { h with prev := none, gather := [] } prev []
    else (h, [])
  let h := r.1
  let h := match buffer with
    | some b => { h with gather := b :: h.gather }
    | none => h
  (h, r.2)

/-- The EOS handling of `gst_h264_parse_sink_event` for reverse playback:
a final discontinuity pass over the gathered data followed by a decode
flush. -/
def reverseEos (h : GstH264Parse) : GstH264Parse × List Emission :=
  let r1 := gst_h264_parse_chain_reverse h true none
  let r2 := gst_h264_parse_flush_decode r1.1
  (r2.1, r1.2 ++ r2.2)

/-! Concrete states and inputs used by the claim theorems. -/

/-- A byte-stream configured element (`setcaps` without codec data). -/
def bytestreamState : GstH264Parse :=
  { initState with packetized := false, nal_length_size := 4 }

/-- A packetized element configured with 4-byte length prefixes. -/
def packetizedState : GstH264Parse :=
  { initState with packetized := true, nal_length_size := 4 }

/-- An SPS message whose `log2_max_frame_num_minus4` field decodes to 13:
profile 66, constraint/reserved byte 0, level 10, then bits
`1` (sps id 0) and `0001110` (Exp-Golomb 13). -/
def c3msg : List Byte := [0x42, 0x00, 0x0A, 0x8E]

/-- A state whose SPS table has an entry for id 0. -/
def c4state : GstH264Parse :=
  { initState with
    sps_buffers := Function.update (fun _ => none) 0 (some spsZero) }

/-- Byte-stream buffer of claim C5: start code, SPS bytes `67 42`, start
code, IDR slice bytes `65 88` (slice type decodes to 7, an I slice). -/
def c5buf : List Byte :=
  [0, 0, 0, 1, 0x67, 0x42, 0, 0, 0, 1, 0x65, 0x88]

/-- The four packetized units of claim C8: slice types P, P, I, P (nal
types 1, 1, 5, 1; the second byte `C0` is first-mb 0 and slice type 0,
`B0` is first-mb 0 and slice type 2). -/
def c8u1 : List Byte := [0, 0, 0, 2, 0x41, 0xC0]

/-- Second P unit of claim C8. -/
def c8u2 : List Byte := [0, 0, 0, 2, 0x21, 0xC0]

/-- The I unit of claim C8. -/
def c8u3 : List Byte := [0, 0, 0, 2, 0x65, 0xB0]

/-- Fourth (P) unit of claim C8. -/
def c8u4 : List Byte := [0, 0, 0, 2, 0x61, 0xC0]

/-- The C8 scenario: the four units pushed forward-order as independent
calls, followed by a discontinuity (the EOS path: a discontinuity pass
plus the final decode flush). -/
def c8run : GstH264Parse × List Emission :=
  let s1 := (gst_h264_parse_chain_reverse packetizedState false
    (some c8u1)).1
  let s2 := (gst_h264_parse_chain_reverse s1 false (some c8u2)).1
  let s3 := (gst_h264_parse_chain_reverse s2 false (some c8u3)).1
  let s4 := (gst_h264_parse_chain_reverse s3 false (some c8u4)).1
  reverseEos s4

/-- An SPS record with NAL HRD parameters present and 8-bit delay
fields. -/
def c9sps : GstH264Sps :=
  { spsZero with nal_hrd_parameters_present_flag := true,
                 initial_cpb_removal_delay_length_minus1 := 7 }

/-- A state that already knows SPS 0 (with HRD fields). -/
def c9state : GstH264Parse :=
  { initState with
    sps_buffers := Function.update (fun _ => none) 0 (some c9sps) }

/-- A buffering-period message for SPS 0: bit `1` (sps id 0) followed by
the delay fields. -/
def c9msg : List Byte := [0x80, 0xAB, 0xCD]

/-- Claim C3, counterexample: decoding an SPS whose
`log2_max_frame_num_minus4` decodes to 13 from the fresh state does
return FALSE, but the SPS table entry for id 0 is not left absent — the
partially decoded record (profile 66, level 10, the rejected field value
13) is created and stored before the validation check. -/
theorem C3_counterexample :
    (gst_nal_decode_sps initState (gst_nal_bs_init c3msg)).1 = false ∧
      (gst_nal_decode_sps initState
        (gst_nal_bs_init c3msg)).2.1.sps_buffers 0 ≠
        initState.sps_buffers 0 := by
  decide

/-- Claim C4, counterexample: after the flush/reset operation
(`gst_h264_parse_clear_queues`) the parameter-set tables need not be
empty — an SPS entry present before the flush is still present after. -/
theorem C4_counterexample :
    (gst_h264_parse_clear_queues c4state).sps_buffers 0 ≠ none := by
  decide

/-- Claim C4, amended: the flush/reset operation is idempotent, and after
it runs the gather list, decode queue, carry-over buffer, adapter are
empty and `have_i_frame` is false — but the SPS/PPS parameter-set tables
are left exactly as they were, not emptied. -/
theorem C4_amended (s : GstH264Parse) :
    gst_h264_parse_clear_queues (gst_h264_parse_clear_queues s) =
      gst_h264_parse_clear_queues s ∧
    (gst_h264_parse_clear_queues s).gather = [] ∧
    (gst_h264_parse_clear_queues s).decode = [] ∧
    (gst_h264_parse_clear_queues s).decode_len = 0 ∧
    (gst_h264_parse_clear_queues s).prev = none ∧
    (gst_h264_parse_clear_queues s).adapter = [] ∧
    (gst_h264_parse_clear_queues s).have_i_frame = false ∧
    (gst_h264_parse_clear_queues s).sps_buffers = s.sps_buffers ∧
    (gst_h264_parse_clear_queues s).pps_buffers = s.pps_buffers :=
  ⟨rfl, rfl, rfl, rfl, rfl, rfl, rfl, rfl, rfl⟩

/-- Claim C5, counterexample: pushing the single byte-stream buffer
(start code, SPS, start code, IDR) does not emit two units — only the SPS
unit is emitted; the IDR unit stays in the adapter because no further
start code follows it yet. -/
theorem C5_counterexample :
    ¬ ((gst_h264_parse_chain_forward bytestreamState false c5buf).2.length
      = 2) := by
  decide

/-- Claim C8, counterexample: feeding the packetized units [P, P, I, P]
forward-order as four independent calls and then a discontinuity does not
reproduce them in forward order with delta flags [T, T, F, T]: the walk of
the gather list visits the buffers in reverse arrival order, so the queue
flush triggered by the second P emits the I unit and the fourth unit
first, and the final flush emits the first two P units after them. -/
theorem C8_counterexample :
    ¬ (c8run.2.map Emission.bytes = [c8u1, c8u2, c8u3, c8u4] ∧
        c8run.2.map Emission.delta = [true, true, false, true]) := by
  decide

/-- Claim C8, amended: that scenario emits the same four units, but in the
order [third (I), fourth, first, second] with delta flags
[false, true, true, true]; the I unit and the first flushed P unit carry
the discontinuity flag. -/
theorem C8_amended :
    c8run.2.map Emission.bytes = [c8u3, c8u4, c8u1, c8u2] ∧
    c8run.2.map Emission.delta = [false, true, true, true] ∧
    c8run.2.map Emission.discont = [true, false, true, false] := by
  decide

lemma bp_always_false (h : GstH264Parse) (bs : GstNalBs) :
    (gst_sei_decode_buffering_period h bs).1 = false := by
  simp only [gst_sei_decode_buffering_period]
  split <;> rfl

lemma pt_always_false (h : GstH264Parse) (bs : GstNalBs) :
    (gst_sei_decode_picture_timing h bs).1 = false := by
  simp only [gst_sei_decode_picture_timing]
  split
  · rfl
  · simp [apply_ite (fun p : Bool × GstH264Parse × GstNalBs => p.1)]

lemma bpSchedLoop_frame (len : Nat) :
    ∀ m idx : Nat, ∀ h : GstH264Parse, ∀ bs : GstNalBs,
      (bpSchedLoop len idx m h bs).1.cur_sps = h.cur_sps ∧
      (bpSchedLoop len idx m h bs).1.sps_buffers = h.sps_buffers ∧
      (bpSchedLoop len idx m h bs).1.ts_trn_nb = h.ts_trn_nb ∧
      (bpSchedLoop len idx m h bs).1.dts = h.dts := by
  intro m
  induction m with
  | zero => intro idx h bs; exact ⟨rfl, rfl, rfl, rfl⟩
  | succ m ih =>
    intro idx h bs
    simp only [bpSchedLoop]
    exact ih (idx + 1) _ _

/-- Claim C10 (confirmed): both inner SEI decoders end their complete
paths in `return 0`, so they return FALSE on every input, and
`gst_nal_decode_sei` therefore returns FALSE whenever the parsed payload
type selects the buffering-period (0) or picture-timing (1) decoder — a
caller cannot distinguish a completely decoded message of these types
from a failed one by the boolean result. -/
theorem C10_sei_false (h : GstH264Parse) (bs : GstNalBs) :
    (gst_sei_decode_buffering_period h bs).1 = false ∧
    (gst_sei_decode_picture_timing h bs).1 = false ∧
    ((seiValLoop (bs.data.length + bs.head + 1) 0 bs).1 = 0 ∨
        (seiValLoop (bs.data.length + bs.head + 1) 0 bs).1 = 1 →
      (gst_nal_decode_sei h bs).1 = false) := by
  refine ⟨bp_always_false h bs, pt_always_false h bs, ?_⟩
  intro hpt
  simp only [gst_nal_decode_sei]
  rcases hpt with h0 | h1
  · rw [if_pos h0]
    simp [bp_always_false]
  · by_cases h0 : (seiValLoop (bs.data.length + bs.head + 1) 0 bs).1 = 0
    · rw [if_pos h0]
      simp [bp_always_false]
    · rw [if_neg h0, if_pos h1]
      simp [pt_always_false]

/-- Witness for C10: a message whose payload type parses to 0 on the
empty input, where the dispatched buffering-period decode returns
FALSE. -/
theorem C10_sei_false_witness :
    (seiValLoop ((gst_nal_bs_init []).data.length +
        (gst_nal_bs_init []).head + 1) 0 (gst_nal_bs_init [])).1 = 0 ∧
      (gst_nal_decode_sei initState (gst_nal_bs_init [])).1 = false :=
  ⟨by decide, (C10_sei_false initState (gst_nal_bs_init [])).2.2
    (Or.inl (by decide))⟩

/-- Claim C9, counterexample: on a state whose table already holds SPS 0
(with HRD parameters present) and a buffering-period message naming
sps id 0, the decoder does read the HRD delay field (the stored initial
CPB removal delay changes to the value read), yet its boolean result is
FALSE — the same value as in the unresolvable case — so the claim's
"succeeds otherwise" does not hold. -/
theorem C9_counterexample :
    (gst_sei_decode_buffering_period c9state
        (gst_nal_bs_init c9msg)).1 = false ∧
      c9state.sps_buffers 0 ≠ none ∧
      (gst_sei_decode_buffering_period c9state
        (gst_nal_bs_init c9msg)).2.1.initial_cpb_removal_delay 0 = 1 := by
  decide

/-- Claim C9, amended: `gst_sei_decode_buffering_period` returns FALSE on
every input; it returns immediately with the stream state unchanged
exactly when the sps id read from the message is out of table range
(unresolvable); otherwise it resolves the SPS (creating a blank entry if
the id was not yet known), performs the delay-field reads dictated by the
resolved SPS's HRD flags, and runs to its end (updating `ts_trn_nb`). -/
theorem C9_amended (h : GstH264Parse) (bs : GstNalBs) :
    (gst_sei_decode_buffering_period h bs).1 = false ∧
    ((gst_nal_bs_read_ue bs).1 % 256 ≥ MAX_SPS_COUNT →
      (gst_sei_decode_buffering_period h bs).2.1 = h) ∧
    ((gst_nal_bs_read_ue bs).1 % 256 < MAX_SPS_COUNT →
      (gst_sei_decode_buffering_period h bs).2.1.cur_sps =
        some ((gst_nal_bs_read_ue bs).1 % 256) ∧
      (gst_sei_decode_buffering_period h bs).2.1.sps_buffers
        ((gst_nal_bs_read_ue bs).1 % 256) ≠ none ∧
      (gst_sei_decode_buffering_period h bs).2.1.ts_trn_nb ≠ none) := by
  refine ⟨bp_always_false h bs, ?_, ?_⟩
  · intro hge
    simp only [gst_sei_decode_buffering_period, gst_h264_parse_get_sps,
      if_pos hge]
  · intro hlt
    have hneg : ¬ ((gst_nal_bs_read_ue bs).1 % 256 ≥ MAX_SPS_COUNT) := by
      omega
    simp only [gst_sei_decode_buffering_period, gst_h264_parse_get_sps,
      if_neg hneg]
    set sid := (gst_nal_bs_read_ue bs).1 % 256 with hsid
    set sps := (h.sps_buffers sid).getD spsZero with hsps
    set h1 : GstH264Parse :=
      { h with sps_buffers := Function.update h.sps_buffers sid (some sps),
               cur_sps := some sid } with hh1
    have hc1 : h1.cur_sps = some sid := rfl
    have hb1 : h1.sps_buffers sid = some sps := by
      simp [hh1, Function.update]
    set len := (sps.initial_cpb_removal_delay_length_minus1 + 1).toNat
      with hlen
    set r1 :=
      if sps.nal_hrd_parameters_present_flag then
        bpSchedLoop len 0 (sps.cpb_cnt_minus1 + 1) h1
          (gst_nal_bs_read_ue bs).2
      else (h1, (gst_nal_bs_read_ue bs).2) with hr1
    have hf1 : r1.1.cur_sps = h1.cur_sps ∧
        r1.1.sps_buffers = h1.sps_buffers := by
      rw [hr1]
      split
      · exact ⟨(bpSchedLoop_frame len _ 0 h1 _).1,
          (bpSchedLoop_frame len _ 0 h1 _).2.1⟩
      · exact ⟨rfl, rfl⟩
    set r2 :=
      if sps.vcl_hrd_parameters_present_flag then
        bpSchedLoop len 0 (sps.cpb_cnt_minus1 + 1) r1.1 r1.2
      else r1 with hr2
    have hf2 : r2.1.cur_sps = r1.1.cur_sps ∧
        r2.1.sps_buffers = r1.1.sps_buffers := by
      rw [hr2]
      split
      · exact ⟨(bpSchedLoop_frame len _ 0 r1.1 _).1,
          (bpSchedLoop_frame len _ 0 r1.1 _).2.1⟩
      · exact ⟨rfl, rfl⟩
    refine ⟨?_, ?_, ?_⟩
    · show r2.1.cur_sps = some sid
      rw [hf2.1, hf1.1, hc1]
    · show r2.1.sps_buffers sid ≠ none
      rw [hf2.2, hf1.2, hb1]
      simp
    · show (if r2.1.ts_trn_nb = none ∨ r2.1.dts = none then some 0
          else r2.1.dts) ≠ none
      split
      · simp
      · rename_i hcond
        push_neg at hcond
        exact hcond.2

/-- Witness for C9 at two concrete messages: sps id 32 (out of range,
state unchanged) and sps id 0 (resolved, current SPS set). -/
theorem C9_amended_witness :
    ((gst_nal_bs_read_ue (gst_nal_bs_init [0x04, 0x20])).1 % 256 ≥
        MAX_SPS_COUNT ∧
      (gst_sei_decode_buffering_period initState
        (gst_nal_bs_init [0x04, 0x20])).2.1 = initState) ∧
    ((gst_nal_bs_read_ue (gst_nal_bs_init [0x80])).1 % 256 <
        MAX_SPS_COUNT ∧
      (gst_sei_decode_buffering_period initState
          (gst_nal_bs_init [0x80])).2.1.cur_sps =
        some ((gst_nal_bs_read_ue (gst_nal_bs_init [0x80])).1 % 256)) :=
  ⟨⟨by decide,
      (C9_amended initState (gst_nal_bs_init [0x04, 0x20])).2.1 (by decide)⟩,
    ⟨by decide,
      ((C9_amended initState (gst_nal_bs_init [0x80])).2.2 (by decide)).1⟩⟩

/-- The DISCONT-flag pattern of a queue flush: true on the first emitted
unit only. -/
def discontPattern : Nat → List Bool
  | 0 => []
  | n + 1 => true :: List.replicate n false

lemma flushLoop_bytes :
    ∀ l : List GstNalList, ∀ f : Bool,
      (flushLoop l f).map Emission.bytes = l.map GstNalList.buffer := by
  intro l
  induction l with
  | nil => intro f; rfl
  | cons x xs ih =>
    intro f
    simp only [flushLoop, List.map_cons, ih]

lemma flushLoop_delta :
    ∀ l : List GstNalList, ∀ f : Bool,
      (flushLoop l f).map Emission.delta = l.map (fun x => ! x.i_frame) := by
  intro l
  induction l with
  | nil => intro f; rfl
  | cons x xs ih =>
    intro f
    simp only [flushLoop, List.map_cons, ih]

lemma flushLoop_discont_false (l : List GstNalList) :
    (flushLoop l false).map Emission.discont =
      List.replicate l.length false := by
  induction l with
  | nil => rfl
  | cons x xs ih =>
    simp only [flushLoop, List.map_cons, ih, List.length_cons,
      List.replicate_succ]

lemma flushLoop_discont (l : List GstNalList) :
    (flushLoop l true).map Emission.discont = discontPattern l.length := by
  cases l with
  | nil => rfl
  | cons x xs =>
    simp only [flushLoop, List.map_cons, flushLoop_discont_false,
      discontPattern, List.length_cons]

/-- Claim C7 (confirmed): in a reverse-path state holding an I slice
(`have_i_frame`), queuing a unit classified as a non-I slice flushes the
queue before the new unit is queued: the held units are emitted in queue
order, the first emitted unit carries the discontinuity flag, each unit's
delta-unit flag is false exactly when that unit is an I frame, and
afterwards the queue holds only the new unit. -/
theorem C7_flush_on_non_i (p : GstH264Parse) (buffer : List Byte)
    (hI : p.have_i_frame = true)
    (hslice : (analyzeNal p buffer).slice = true)
    (hnotI : (analyzeNal p buffer).i_frame = false) :
    (gst_h264_parse_queue_buffer p buffer).2.map Emission.bytes =
      p.decode.map GstNalList.buffer ∧
    (gst_h264_parse_queue_buffer p buffer).2.map Emission.delta =
      p.decode.map (fun l => ! l.i_frame) ∧
    (gst_h264_parse_queue_buffer p buffer).2.map Emission.discont =
      discontPattern p.decode.length ∧
    (gst_h264_parse_queue_buffer p buffer).1.decode =
      [analyzeNal p buffer] ∧
    (gst_h264_parse_queue_buffer p buffer).1.have_i_frame = false := by
  have hcond : p.have_i_frame ∧ ¬ (analyzeNal p buffer).i_frame ∧
      (analyzeNal p buffer).slice := by
    refine ⟨by rw [hI], by rw [hnotI]; simp, by rw [hslice]⟩
  simp only [gst_h264_parse_queue_buffer, if_pos hcond,
    gst_h264_parse_flush_decode, if_neg (by rw [hnotI]; simp :
      ¬ ((analyzeNal p buffer).i_frame = true))]
  refine ⟨flushLoop_bytes _ _, flushLoop_delta _ _, flushLoop_discont _,
    ?_, ?_⟩ <;> first | rfl | trivial

/-- A decode-queue entry for the I unit of the C8 scenario. -/
def c7link : GstNalList :=
  { nal_type := 5, nal_ref_idc := 3, first_mb_in_slice := 0,
    slice_type := 2, slice := true, i_frame := true, buffer := c8u3 }

/-- A packetized state whose decode queue holds an I slice. -/
def c7state : GstH264Parse :=
  { packetizedState with have_i_frame := true, decode := [c7link],
                         decode_len := 1 }

/-- Witness for C7: queuing a P unit into a queue holding an I unit. -/
theorem C7_flush_on_non_i_witness :
    c7state.have_i_frame = true ∧
    (analyzeNal c7state c8u1).slice = true ∧
    (analyzeNal c7state c8u1).i_frame = false ∧
    (gst_h264_parse_queue_buffer c7state c8u1).2.map Emission.bytes =
      c7state.decode.map GstNalList.buffer :=
  ⟨rfl, by decide, by decide,
    (C7_flush_on_non_i c7state c8u1 rfl (by decide) (by decide)).1⟩

lemma chainForwardLoop_stop (fuel : Nat) (h : GstH264Parse)
    (acc : List Emission) (hA : h.adapter = []) :
    chainForwardLoop fuel h acc = (h, acc) := by
  cases fuel with
  | zero => rfl
  | succ fuel =>
    simp only [chainForwardLoop, hA]
    rw [if_pos (by simp : ([] : List Byte).length < h.nal_length_size + 1)]

/-- The single unit emitted by a clamped packetized iteration: the whole
adapter content. -/
def wholeAdapterEmission (h : GstH264Parse) : Emission :=
  { bytes := h.adapter, discont := h.discont,
    delta := forwardDeltaUnit (h.adapter.drop h.nal_length_size) }

lemma chainForwardLoop_clamped_step (fuel : Nat) (h : GstH264Parse)
    (acc : List Emission) (hpk : h.packetized = true)
    (hlen : h.nal_length_size + 1 ≤ h.adapter.length)
    (hav : h.adapter.length < 2 ^ 32)
    (hbad : beBytes (h.adapter.take h.nal_length_size) ≤ 1 ∨
      h.adapter.length <
        (beBytes (h.adapter.take h.nal_length_size) +
          h.nal_length_size) % 2 ^ 32) :
    chainForwardLoop (fuel + 1) h acc =
      chainForwardLoop fuel { h with adapter := [], discont := false }
        (acc ++ [wholeAdapterEmission h]) := by
  simp only [wholeAdapterEmission]
  simp only [chainForwardLoop]
  rw [if_neg (by omega : ¬ h.adapter.length < h.nal_length_size + 1)]
  rw [if_neg (by simp [hpk] : ¬ ¬ h.packetized = true)]
  rw [if_pos (by omega : beBytes (h.adapter.take h.nal_length_size) ≤ 1 ∨
    (beBytes (h.adapter.take h.nal_length_size) + h.nal_length_size)
      % 2 ^ 32 > h.adapter.length)]
  have hsub : (h.adapter.length - h.nal_length_size + h.nal_length_size)
      % 2 ^ 32 = h.adapter.length := by
    rw [show h.adapter.length - h.nal_length_size + h.nal_length_size =
      h.adapter.length from by omega]
    exact Nat.mod_eq_of_lt hav
  by_cases hsp : h.split_packetized = true
  · rw [if_pos hsp, if_pos hsub.le, hsub]
    dsimp only
    rw [if_pos (by omega : 0 < h.adapter.length)]
    simp [List.take_length, List.drop_length]
  · rw [if_neg hsp]
    dsimp only
    rw [if_pos (by omega : 0 < h.adapter.length)]
    simp [List.take_length, List.drop_length]

/-- A split-packetized element configured with 4-byte length prefixes. -/
def splitPacketizedState : GstH264Parse :=
  { initState with packetized := true, split_packetized := true,
                   nal_length_size := 4 }

/-- A packetized buffer whose declared NAL length `FF FF FF FF` plus the
4-byte prefix wraps around the `guint32` range. -/
def c6wrapbuf : List Byte := [0xFF, 0xFF, 0xFF, 0xFF, 0x41, 0xC0]

/-- Claim C6, counterexample: the declared length `0xFFFFFFFF` plus the
prefix size exceeds the 6 available bytes, yet the length is NOT clamped:
the `guint32` sum `nalu_size + nal_length_size` wraps to 3, the clamp test
fails, and in split mode a wrapped 3-byte unit is emitted with 3 bytes
left in the adapter, instead of the whole buffer as one unit. -/
theorem C6_counterexample :
    c6wrapbuf.length < beBytes (c6wrapbuf.take 4) + 4 ∧
    ¬ ((gst_h264_parse_chain_forward splitPacketizedState false
        c6wrapbuf).2.map Emission.bytes = [c6wrapbuf]) ∧
    (gst_h264_parse_chain_forward splitPacketizedState false
        c6wrapbuf).2.map Emission.bytes = [[0xFF, 0xFF, 0xFF]] ∧
    (gst_h264_parse_chain_forward splitPacketizedState false
        c6wrapbuf).1.adapter = [0xFF, 0x41, 0xC0] := by
  decide

/-- Claim C6, amended: in packetized forward mode, a buffer whose declared
big-endian NAL length is implausible — at most 1, or such that length plus
prefix exceeds the available bytes — is not rejected, PROVIDED the
`guint32` sum `nalu_size + nal_length_size` does not wrap (declared length
below two to the thirty-second minus the prefix size): the length is
clamped to the remaining byte count and processing continues, emitting the
whole available data as one unit.  When the sum wraps, the clamp is
skipped instead. -/
theorem C6_amended (h : GstH264Parse) (buf : List Byte)
    (hpk : h.packetized = true) (hA : h.adapter = [])
    (hlen : h.nal_length_size + 1 ≤ buf.length)
    (hav : buf.length < 2 ^ 32)
    (hnw : beBytes (buf.take h.nal_length_size) + h.nal_length_size <
      2 ^ 32)
    (hbad : beBytes (buf.take h.nal_length_size) ≤ 1 ∨
      buf.length < beBytes (buf.take h.nal_length_size) +
        h.nal_length_size) :
    (gst_h264_parse_chain_forward h false buf).2.map Emission.bytes =
      [buf] ∧
    (gst_h264_parse_chain_forward h false buf).1.adapter = [] := by
  have hbad' : beBytes (buf.take h.nal_length_size) ≤ 1 ∨
      buf.length < (beBytes (buf.take h.nal_length_size) +
        h.nal_length_size) % 2 ^ 32 := by
    rcases hbad with h1 | h2
    · exact Or.inl h1
    · right
      rw [Nat.mod_eq_of_lt hnw]
      exact h2
  have hstate : gst_h264_parse_chain_forward h false buf =
      chainForwardLoop buf.length { h with adapter := buf } [] := by
    simp [gst_h264_parse_chain_forward, hA]
  obtain ⟨m, hm⟩ : ∃ m, buf.length = m + 1 := ⟨buf.length - 1, by omega⟩
  rw [hstate, hm]
  rw [chainForwardLoop_clamped_step m { h with adapter := buf } []
    hpk (by simpa using hlen) (by simpa using hav) (by simpa using hbad')]
  rw [chainForwardLoop_stop m _ _ rfl]
  simp [wholeAdapterEmission]

/-- A packetized buffer whose declared NAL length (99) exceeds the two
available payload bytes. -/
def c6buf : List Byte := [0, 0, 0, 99, 0x41, 0xC0]

/-- Witness for C6 at a concrete oversized (but non-wrapping) declared
length. -/
theorem C6_amended_witness :
    (packetizedState.nal_length_size + 1 ≤ c6buf.length ∧
      c6buf.length < 2 ^ 32 ∧
      beBytes (c6buf.take packetizedState.nal_length_size) +
        packetizedState.nal_length_size < 2 ^ 32 ∧
      (beBytes (c6buf.take packetizedState.nal_length_size) ≤ 1 ∨
        c6buf.length < beBytes (c6buf.take packetizedState.nal_length_size) +
          packetizedState.nal_length_size)) ∧
    (gst_h264_parse_chain_forward packetizedState false c6buf).2.map
      Emission.bytes = [c6buf] :=
  ⟨⟨by decide, by decide, by decide, by decide⟩,
    (C6_amended packetizedState c6buf rfl rfl (by decide) (by decide)
      (by decide) (by decide)).1⟩

/-- The partially decoded record present in the SPS table after a failed
`log2_max_frame_num_minus4` validation: the prior entry (or a blank one)
with the fields written before the check. -/
def spsPartial (h : GstH264Parse) (bs : GstNalBs) : GstH264Sps :=
  { (h.sps_buffers ((spsHeaderParse bs).2.2.1 % 256)).getD spsZero with
    profile_idc := (spsHeaderParse bs).1,
    level_idc := (spsHeaderParse bs).2.1,
    log2_max_frame_num_minus4 :=
      (gst_nal_bs_read_ue
        (spsChromaSkip (spsHeaderParse bs).1 (spsHeaderParse bs).2.2.2)).1 %
        256 }

/-- Claim C3, amended: for every stream state, decoding an SPS message
whose `log2_max_frame_num_minus4` field decodes (as the stored `guint8`)
to a value above 12, with a resolvable sps id, returns FALSE — but the
SPS table entry for that id is not left unchanged: it holds the partially
decoded record (entry created if absent; `profile_idc`, `level_idc` and
the rejected `log2_max_frame_num_minus4` already written). -/
theorem C3_amended (h : GstH264Parse) (bs : GstNalBs)
    (hid : (spsHeaderParse bs).2.2.1 % 256 < MAX_SPS_COUNT)
    (hl2 : (gst_nal_bs_read_ue
      (spsChromaSkip (spsHeaderParse bs).1
        (spsHeaderParse bs).2.2.2)).1 % 256 > 12) :
    (gst_nal_decode_sps h bs).1 = false ∧
    (gst_nal_decode_sps h bs).2.1.sps_buffers
        ((spsHeaderParse bs).2.2.1 % 256) = some (spsPartial h bs) := by
  have hneg : ¬ ((spsHeaderParse bs).2.2.1 % 256 ≥ MAX_SPS_COUNT) := by
    omega
  simp only [gst_nal_decode_sps, gst_h264_parse_get_sps, if_neg hneg]
  rw [if_pos (by exact hl2)]
  refine ⟨rfl, ?_⟩
  simp only [writeSps, Function.update_same]
  rfl

/-- Witness for C3 at the concrete malformed SPS message. -/
theorem C3_amended_witness :
    ((spsHeaderParse (gst_nal_bs_init c3msg)).2.2.1 % 256 <
        MAX_SPS_COUNT ∧
      (gst_nal_bs_read_ue
        (spsChromaSkip (spsHeaderParse (gst_nal_bs_init c3msg)).1
          (spsHeaderParse (gst_nal_bs_init c3msg)).2.2.2)).1 % 256 > 12) ∧
    (gst_nal_decode_sps initState (gst_nal_bs_init c3msg)).1 = false :=
  ⟨⟨by decide, by decide⟩,
    (C3_amended initState (gst_nal_bs_init c3msg) (by decide)
      (by decide)).1⟩

/-- A four-byte start code `00 00 00 01` at position `i` of a byte list. -/
abbrev scAt (l : List Byte) (i : Nat) : Prop :=
  l.get? i = some 0 ∧ l.get? (i + 1) = some 0 ∧
    l.get? (i + 2) = some 0 ∧ l.get? (i + 3) = some 1

lemma findScLoop_step (l : List Byte) (i : Nat) (hi : i + 4 < l.length) :
    findScLoop (l.drop i) i =
      if scAt l i then some i else findScLoop (l.drop (i + 1)) (i + 1) := by
  have hlen : 5 ≤ (l.drop i).length := by
    rw [List.length_drop]; omega
  rcases hdrop : l.drop i with _ | ⟨b0, _ | ⟨b1, _ | ⟨b2, _ | ⟨b3,
      _ | ⟨b4, tl⟩⟩⟩⟩⟩ <;>
    rw [hdrop] at hlen <;> simp only [List.length_cons, List.length_nil]
      at hlen <;> try omega
  have hget : ∀ j : Nat, l.get? (i + j) = (l.drop i).get? j := by
    intro j
    rw [List.get?_drop]
  have h0 : l.get? i = some b0 := by
    have := hget 0
    rw [hdrop] at this
    simpa using this
  have h1 : l.get? (i + 1) = some b1 := by
    have := hget 1
    rw [hdrop] at this
    simpa using this
  have h2 : l.get? (i + 2) = some b2 := by
    have := hget 2
    rw [hdrop] at this
    simpa using this
  have h3 : l.get? (i + 3) = some b3 := by
    have := hget 3
    rw [hdrop] at this
    simpa using this
  have htail : l.drop (i + 1) = b1 :: b2 :: b3 :: b4 :: tl := by
    have := List.tail_drop l i
    rw [hdrop] at this
    simpa using this.symm
  simp only [findScLoop, htail]
  by_cases hcond : b0.val = 0 ∧ b1.val = 0 ∧ b2.val = 0 ∧ b3.val = 1
  · rw [if_pos hcond, if_pos ?_]
    refine ⟨?_, ?_, ?_, ?_⟩
    · rw [h0]; congr 1; exact Fin.ext hcond.1
    · rw [h1]; congr 1; exact Fin.ext hcond.2.1
    · rw [h2]; congr 1; exact Fin.ext hcond.2.2.1
    · rw [h3]; congr 1; exact Fin.ext hcond.2.2.2
  · rw [if_neg hcond, if_neg ?_]
    intro hsc
    apply hcond
    refine ⟨?_, ?_, ?_, ?_⟩
    · have := hsc.1; rw [h0] at this
      have hb : b0 = (0 : Byte) := by injection this
      rw [hb]; rfl
    · have := hsc.2.1; rw [h1] at this
      have hb : b1 = (0 : Byte) := by injection this
      rw [hb]; rfl
    · have := hsc.2.2.1; rw [h2] at this
      have hb : b2 = (0 : Byte) := by injection this
      rw [hb]; rfl
    · have := hsc.2.2.2; rw [h3] at this
      have hb : b3 = (1 : Byte) := by injection this
      rw [hb]; rfl

lemma findScLoop_short (l : List Byte) (i : Nat)
    (hi : ¬ i + 4 < l.length) :
    findScLoop (l.drop i) i = none := by
  have hlen : (l.drop i).length < 5 := by
    rw [List.length_drop]; omega
  rcases hdrop : l.drop i with _ | ⟨b0, _ | ⟨b1, _ | ⟨b2, _ | ⟨b3,
      _ | ⟨b4, tl⟩⟩⟩⟩⟩ <;>
    simp only [findScLoop] <;>
    rw [hdrop] at hlen <;> simp only [List.length_cons] at hlen <;> omega

lemma findScLoop_finds :
    ∀ k : Nat, ∀ l : List Byte, ∀ i target : Nat, target = i + k →
      target + 4 < l.length → scAt l target →
      (∀ j : Nat, i ≤ j → j < target → ¬ scAt l j) →
      findScLoop (l.drop i) i = some target := by
  intro k
  induction k with
  | zero =>
    intro l i target htk htb hsc hno
    have hit : i = target := by omega
    rw [hit, findScLoop_step l target htb, if_pos hsc]
  | succ k ih =>
    intro l i target htk htb hsc hno
    have hi4 : i + 4 < l.length := by omega
    rw [findScLoop_step l i hi4]
    rw [if_neg (hno i le_rfl (by omega))]
    exact ih l (i + 1) target (by omega) htb hsc
      (fun j hj hjt => hno j (by omega) hjt)

lemma findScLoop_none :
    ∀ fuel : Nat, ∀ l : List Byte, ∀ i : Nat, l.length ≤ i + fuel →
      (∀ j : Nat, i ≤ j → j + 4 < l.length → ¬ scAt l j) →
      findScLoop (l.drop i) i = none := by
  intro fuel
  induction fuel with
  | zero =>
    intro l i hfl hno
    apply findScLoop_short
    omega
  | succ fuel ih =>
    intro l i hfl hno
    by_cases hi4 : i + 4 < l.length
    · rw [findScLoop_step l i hi4, if_neg (hno i le_rfl hi4)]
      exact ih l (i + 1) (by omega) (fun j hj => hno j (by omega))
    · exact findScLoop_short l i hi4

/-- The unit emitted by one byte-stream iteration that found the next
start code at offset `p`: the first `p` adapter bytes, the pending
discontinuity flag, and the delta classification of the payload after the
4-byte prefix. -/
def scStepEmission (h : GstH264Parse) (p : Nat) : Emission :=
  { bytes := h.adapter.take p, discont := h.discont,
    delta := forwardDeltaUnit (h.adapter.drop h.nal_length_size) }

lemma chainForwardLoop_sc_step (fuel : Nat) (h : GstH264Parse)
    (acc : List Emission) (p : Nat) (hpk : h.packetized = false)
    (hlen : h.nal_length_size + 1 ≤ h.adapter.length)
    (hfind : findScLoop (h.adapter.drop 1) 1 = some p) (hp : 0 < p) :
    chainForwardLoop (fuel + 1) h acc =
      chainForwardLoop fuel
        { h with adapter := h.adapter.drop p, discont := false }
        (acc ++ [scStepEmission h p]) := by
  simp only [scStepEmission]
  simp only [chainForwardLoop]
  rw [if_neg (by omega : ¬ h.adapter.length < h.nal_length_size + 1)]
  rw [if_pos (by simp [hpk] : ¬ h.packetized = true)]
  rw [hfind]
  dsimp only
  rw [if_pos hp]

lemma chainForwardLoop_sc_none (fuel : Nat) (h : GstH264Parse)
    (acc : List Emission) (hpk : h.packetized = false)
    (hlen : h.nal_length_size + 1 ≤ h.adapter.length)
    (hfind : findScLoop (h.adapter.drop 1) 1 = none) :
    chainForwardLoop (fuel + 1) h acc = (h, acc) := by
  simp only [chainForwardLoop]
  rw [if_neg (by omega : ¬ h.adapter.length < h.nal_length_size + 1)]
  rw [if_pos (by simp [hpk] : ¬ h.packetized = true)]
  rw [hfind]

/-- A byte-stream buffer made of a 4-byte start code, SPS bytes, a second
start code, and IDR slice bytes. -/
def scBuf (sps idr : List Byte) : List Byte :=
  [0, 0, 0, 1] ++ sps ++ [0, 0, 0, 1] ++ idr

/-- The ForwardAssembler state right after appending the C5 buffer to an
empty adapter. -/
def scFullState (h : GstH264Parse) (sps idr : List Byte) : GstH264Parse :=
  { h with adapter := scBuf sps idr }

/-- The ForwardAssembler state after the start-code unit holding the SPS
has been emitted: the trailing start code and IDR bytes remain. -/
def scRestState (h : GstH264Parse) (sps idr : List Byte) : GstH264Parse :=
  { h with adapter := (scBuf sps idr).drop (4 + sps.length), discont := false }

/-- Claim C5 (corrected): pushing a byte-stream buffer of exactly
start code + SPS + start code + IDR emits exactly ONE unit — the
start-code-plus-SPS bytes, marked non-delta — while the trailing
start code + IDR bytes stay in the adapter awaiting the next boundary. -/
theorem C5_amended (h : GstH264Parse) (sps idr : List Byte)
    (s0 i0 : Byte) (stl itl : List Byte)
    (hsps : sps = s0 :: stl) (hidr : idr = i0 :: itl)
    (hpk : h.packetized = false) (hA : h.adapter = [])
    (hL : h.nal_length_size = 4) (hd : h.discont = false)
    (htype : s0.val &&& 0x1f = 7)
    (hno1 : ∀ j : Nat, 1 ≤ j → j < 4 + sps.length →
      ¬ scAt (scBuf sps idr) j)
    (hno2 : ∀ j : Nat, 4 + sps.length < j →
      j + 4 < (scBuf sps idr).length → ¬ scAt (scBuf sps idr) j) :
    (gst_h264_parse_chain_forward h false (scBuf sps idr)).2 =
      [⟨[0, 0, 0, 1] ++ sps, false, false⟩] ∧
    (gst_h264_parse_chain_forward h false (scBuf sps idr)).1.adapter =
      [0, 0, 0, 1] ++ idr := by
  have hbuf : scBuf sps idr =
      ([0, 0, 0, 1] ++ sps) ++ ([0, 0, 0, 1] ++ idr) := by
    simp [scBuf]
  have hlen1 : ([0, 0, 0, 1] ++ sps : List Byte).length =
      4 + sps.length := by
    simp only [List.length_append, List.length_cons, List.length_nil]
  have hlenbuf : (scBuf sps idr).length = 8 + sps.length + idr.length := by
    simp only [scBuf, List.length_append, List.length_cons, List.length_nil]
    omega
  have hslen : 1 ≤ sps.length := by rw [hsps]; simp
  have hilen : 1 ≤ idr.length := by rw [hidr]; simp
  have hsc2 : ∀ j : Nat, (scBuf sps idr).get? (4 + sps.length + j) =
      ([0, 0, 0, 1] ++ idr : List Byte).get? j := by
    intro j
    rw [hbuf, List.get?_append_right (by rw [hlen1]; omega)]
    congr 1
    rw [hlen1]
    omega
  have hstate : gst_h264_parse_chain_forward h false (scBuf sps idr) =
      chainForwardLoop (scBuf sps idr).length
        (scFullState h sps idr) [] := by
    simp [gst_h264_parse_chain_forward, scFullState, hA]
  obtain ⟨m, hm⟩ : ∃ m, (scBuf sps idr).length = m + 2 :=
    ⟨(scBuf sps idr).length - 2, by omega⟩
  have hfind1 : findScLoop ((scBuf sps idr).drop 1) 1 =
      some (4 + sps.length) := by
    apply findScLoop_finds (3 + sps.length) (scBuf sps idr) 1
      (4 + sps.length) (by omega) (by omega) ?_ ?_
    · refine ⟨?_, ?_, ?_, ?_⟩
      · have h0 := hsc2 0
        simpa using h0
      · exact hsc2 1
      · exact hsc2 2
      · exact hsc2 3
    · intro j hj1 hj2
      exact hno1 j hj1 hj2
  have htakeT : (scBuf sps idr).take (4 + sps.length) =
      [0, 0, 0, 1] ++ sps := by
    rw [hbuf, ← hlen1, List.take_left]
  have hdropT : (scBuf sps idr).drop (4 + sps.length) =
      [0, 0, 0, 1] ++ idr := by
    rw [hbuf, ← hlen1, List.drop_left]
  have hfind2 : findScLoop
      (((scBuf sps idr).drop (4 + sps.length)).drop 1) 1 = none := by
    rw [hdropT]
    apply findScLoop_none (4 + idr.length) ([0, 0, 0, 1] ++ idr) 1
      (by simp only [List.length_append, List.length_cons,
        List.length_nil]; omega)
    intro j hj1 hj4 hscj
    apply hno2 (4 + sps.length + j) (by omega) ?_ ?_
    · simp only [List.length_append, List.length_cons, List.length_nil]
        at hj4
      omega
    · refine ⟨?_, ?_, ?_, ?_⟩
      · rw [hsc2 j]
        exact hscj.1
      · rw [show 4 + sps.length + j + 1 = 4 + sps.length + (j + 1) from
          by omega, hsc2 (j + 1)]
        exact hscj.2.1
      · rw [show 4 + sps.length + j + 2 = 4 + sps.length + (j + 2) from
          by omega, hsc2 (j + 2)]
        exact hscj.2.2.1
      · rw [show 4 + sps.length + j + 3 = 4 + sps.length + (j + 3) from
          by omega, hsc2 (j + 3)]
        exact hscj.2.2.2
  have hrun : chainForwardLoop (m + 2) (scFullState h sps idr) [] =
      (scRestState h sps idr,
        [scStepEmission (scFullState h sps idr) (4 + sps.length)]) := by
    rw [chainForwardLoop_sc_step (m + 1) (scFullState h sps idr) []
      (4 + sps.length) hpk
      (show h.nal_length_size + 1 ≤ (scBuf sps idr).length from by omega)
      hfind1 (by omega)]
    exact chainForwardLoop_sc_none m (scRestState h sps idr) _ hpk
      (by show h.nal_length_size + 1 ≤
            ((scBuf sps idr).drop (4 + sps.length)).length
          rw [hL, hdropT]
          simp only [List.length_append, List.length_cons, List.length_nil]
          omega)
      hfind2
  have hem : scStepEmission (scFullState h sps idr)
      (4 + sps.length) = ⟨[0, 0, 0, 1] ++ sps, false, false⟩ := by
    have hdelta : forwardDeltaUnit ((scBuf sps idr).drop 4) = false := by
      have hd4 : (scBuf sps idr).drop 4 =
          s0 :: (stl ++ ([0, 0, 0, 1] ++ idr)) := by
        simp [scBuf, hsps]
      rw [hd4]
      simp only [forwardDeltaUnit]
      rw [htype]
      norm_num
    simp only [scStepEmission, scFullState]
    rw [htakeT, hd, hL, hdelta]
  rw [hstate, hm, hrun]
  constructor
  · dsimp only
    rw [hem]
  · simp only [scRestState]
    exact hdropT

/-- Witness for C5: profile-66 SPS bytes `67 42` and IDR bytes `65 88`. -/
theorem C5_amended_witness :
    (gst_h264_parse_chain_forward bytestreamState false
        (scBuf [0x67, 0x42] [0x65, 0x88])).2 =
      [⟨[0, 0, 0, 1, 0x67, 0x42], false, false⟩] ∧
    (gst_h264_parse_chain_forward bytestreamState false
        (scBuf [0x67, 0x42] [0x65, 0x88])).1.adapter =
      [0, 0, 0, 1, 0x65, 0x88] :=
  C5_amended bytestreamState [0x67, 0x42] [0x65, 0x88] 0x67 0x65 [0x42]
    [0x88] rfl rfl rfl rfl rfl rfl (by decide)
    (fun j h1 h2 => by
      have hu : j < 6 := h2
      interval_cases j <;> decide)
    (fun j h1 h2 => by
      have hl : 6 < j := h1
      have hu : j < 8 := by
        have h12 : (scBuf [0x67, 0x42] [0x65, 0x88]).length = 12 := rfl
        omega
      interval_cases j <;> decide)
